import Mathlib

/-!
Verification development for the citra-games-wiki validation tool
(`_validation/app.js`).  The JavaScript program is shallowly embedded:

* TOML documents (as produced by the `toml` npm parser) become the
  inductive `TomlValue`; a parsed document is an association list
  (`Struct`), property lookup returning `none` models JavaScript
  `undefined`.
* Filesystem reads and third-party decoders are modelled as inputs:
  an image file carries the result of `image-type` (the detected MIME
  type, `none` when the chunk cannot be classified) and of `image-size`;
  a TOML file carries its parse outcome (`Except PErr Struct`).
* Validators return the list of messages they push via `validationError`
  together with `Option JsError`: `some e` models a JavaScript exception
  escaping the function (errors already pushed are kept).  Sequencing
  with exceptions is `vseq`.
* Error messages are recorded as the structured type `VMsg`; `render`
  produces the exact strings the JavaScript code builds.
-/

set_option autoImplicit false

/-- A JavaScript runtime exception (the program only ever produces
`TypeError`s, from calling a method on a value that lacks it). -/
inductive JsError : Type where
  | typeError (message : String)
  deriving DecidableEq

/-- A value in a parsed TOML document, as represented by the `toml` npm
package: strings, numbers (integers and floats are both JS numbers;
a float is carried together with its canonical JS string rendering),
booleans, arrays and tables. -/
inductive TomlValue : Type where
  | str (s : String)
  | int (n : Int)
  | float (repr : String)
  | bool (b : Bool)
  | arr (l : List TomlValue)
  | table (t : List (String × TomlValue))

/-- A parsed TOML table: association list from keys to values.  A lookup
returning `none` models the JavaScript `undefined`. -/
abbrev Struct := List (String × TomlValue)

/-- JavaScript property read `struct[name]` on a parsed table. -/
def lookupField (s : Struct) (n : String) : Option TomlValue :=
  (s.find? (fun p => p.1 == n)).map (fun p => p.2)

/-- Reading named properties from an arbitrary JS value: only tables have
them; on strings, numbers, booleans and arrays a named lookup yields
`undefined` (so every field comes back missing). -/
def TomlValue.asStruct : TomlValue → Struct
  | .table t => t
  | _ => []

/-- Iterating `for (i = 0; i < section.length; i++) section[i]` over a JS
value: arrays yield their elements, strings their one-character strings;
numbers and booleans have no `length` so the loop body never runs.
(Tables with an explicit numeric `length` key are not modelled.) -/
def TomlValue.elems : TomlValue → List TomlValue
  | .arr l => l
  | .str s => s.data.map (fun c => .str (String.singleton c))
  | _ => []

/-- The JS `length` property: strings and arrays have one, other values
yield `undefined` (so comparisons like `field.length !== 16` succeed).
(Tables with an explicit "length" key are not modelled.) -/
def jsLength : TomlValue → Option Nat
  | .str s => some s.length
  | .arr l => some l.length
  | _ => none

mutual

/-- JavaScript `String(v)` for TOML-representable values: strings are
themselves, numbers print in decimal (a float carries its canonical
rendering), booleans print `true`/`false`, arrays join their elements
with commas, plain objects print `[object Object]`. -/
def jsToString : TomlValue → String
  | .str s => s
  | .int n => toString n
  | .float r => r
  | .bool b => if b then "true" else "false"
  | .arr l => String.intercalate "," (jsToStringList l)
  | .table _ => "[object Object]"

def jsToStringList : List TomlValue → List String
  | [] => []
  | v :: rest => jsToString v :: jsToStringList rest

end

/-- Value of a hexadecimal digit character, `none` for non-digits. -/
def hexDigitVal (c : Char) : Option Nat :=
  if c.isDigit then some (c.toNat - 48)
  else if 'a' ≤ c ∧ c ≤ 'f' then some (c.toNat - 87)
  else if 'A' ≤ c ∧ c ≤ 'F' then some (c.toNat - 55)
  else none

/-- Numeric value of a digit list in the given base. -/
def digitsVal (base : Nat) (l : List Char) : Nat :=
  l.foldl (fun a c => a * base + ((hexDigitVal c).getD 0)) 0

/-- Leading run of decimal digits, `none` when there is none
(`parseInt` yields `NaN` in that case). -/
def parseDecimal (l : List Char) : Option Nat :=
  let ds := l.takeWhile Char.isDigit
  if ds.isEmpty then none else some (digitsVal 10 ds)

/-- Leading run of hexadecimal digits after a `0x` prefix. -/
def parseHex (l : List Char) : Option Nat :=
  let ds := l.takeWhile (fun c => (hexDigitVal c).isSome)
  if ds.isEmpty then none else some (digitsVal 16 ds)

/-- Unsigned part of JS `parseInt`: a `0x`/`0X` prefix switches to
hexadecimal, otherwise the leading decimal digits are taken. -/
def parseIntCore (l : List Char) : Option Nat :=
  match l with
  | '0' :: 'x' :: rest => parseHex rest
  | '0' :: 'X' :: rest => parseHex rest
  | _ => parseDecimal l

/-- JS `parseInt` on a string: trim leading whitespace, optional sign,
then the longest numeric prefix; `none` models `NaN`. -/
def jsParseIntChars (l : List Char) : Option Int :=
  match l.dropWhile (fun c => c.isWhitespace) with
  | '-' :: rest => (parseIntCore rest).map (fun n => -(n : Int))
  | '+' :: rest => (parseIntCore rest).map (fun n => (n : Int))
  | rest => (parseIntCore rest).map (fun n => (n : Int))

/-- JS `parseInt(v)` on an arbitrary value: the argument is first
converted with `String(v)`. -/
def jsParseInt (v : TomlValue) : Option Int :=
  jsParseIntChars (jsToString v).data

/-- `typeof v === "number"` for TOML values: integers and floats. -/
def isNumberValue : TomlValue → Bool
  | .int _ => true
  | .float _ => true
  | _ => false

/-- Whether a TOML value is an integer (the spec's reading of the
`github_issues` element type). -/
def isIntegerValue : TomlValue → Bool
  | .int _ => true
  | _ => false

/-- Whether a (possibly missing) field value is a literal boolean. -/
def isBooleanOpt : Option TomlValue → Bool
  | some (.bool _) => true
  | _ => false

/-- Structured form of every message the program ever passes to
`validationError`; `render` recovers the exact string. -/
inductive VMsg : Type where
  | imageNotFound (p : String)
  | imageFormat (actual expected : String)
  | imageDims (p : String) (w h ew eh : Int)
  | fieldMissing (name : String)
  | fieldNotString (name : String)
  | fieldEmpty (name : String)
  | fieldNotBoolean (name : String)
  | notValidDate (name field : String)
  | fileNotExist (p : String)
  | tomlNotFound (p : String)
  | tomlParseError (line : Int) (message : String)
  | githubNotArray
  | githubEntryNotNumber
  | noReleases
  | noTestcases
  | releaseTitleLen (k : Nat)
  | releaseTitlePat (k : Nat)
  | releaseRegion (k : Nat) (field : String)
  | tcVersionLen (k : Nat)
  | tcVersionSrc (k : Nat)
  | saveTitleIdLen
  | saveTitleIdPat
  | notZip (p : String)
  deriving DecidableEq

/-- The exact strings built by `app.js` for each recorded error. -/
def render : VMsg → String
  | .imageNotFound p => "Image \"" ++ p ++ "\"' was not found at " ++ p ++ "."
  | .imageFormat a e => "Incorrect format of image (" ++ a ++ " != " ++ e ++ ")"
  | .imageDims p w h ew eh =>
      "Image \"" ++ p ++ "\"'s dimensions are " ++ toString w ++ " x " ++ toString h ++
        " instead of the required " ++ toString ew ++ " x " ++ toString eh ++ "."
  | .fieldMissing n => "Field \"" ++ n ++ "\" missing"
  | .fieldNotString n => "Field \"" ++ n ++ "\" is not a string"
  | .fieldEmpty n => "Field \"" ++ n ++ "\" is empty"
  | .fieldNotBoolean n => "Field \"" ++ n ++ "\" is not a boolean"
  | .notValidDate n f => "\"" ++ n ++ "\" is not a valid date (\"" ++ f ++ "\")."
  | .fileNotExist p => "\"" ++ p ++ "\" does not exist!"
  | .tomlNotFound p => "TOML was not found at " ++ p ++ "."
  | .tomlParseError line msg => "TOML parse error (" ++ toString line ++ "): " ++ msg
  | .githubNotArray => "Github issues field is not an array!"
  | .githubEntryNotNumber => "Github issues entry is not a number!"
  | .noReleases => "No releases."
  | .noTestcases => "No testcases."
  | .releaseTitleLen k => "Release #" ++ toString k ++ ": Game title ID has an invalid length"
  | .releaseTitlePat k => "Release #" ++ toString k ++ ": Game title ID is not a hexadecimal ID"
  | .releaseRegion k f => "Release #" ++ toString k ++ ": Invalid region " ++ f
  | .tcVersionLen k => "Testcase #" ++ toString k ++ ": Version is of incorrect length"
  | .tcVersionSrc k => "Testcase #" ++ toString k ++ ": Unknown version commit source"
  | .saveTitleIdLen => "Game save data: Game title ID has an invalid length"
  | .saveTitleIdPat => "Game save data: Game title ID is not a hexadecimal ID"
  | .notZip p => "File " ++ p ++ " is not a .zip!"

/-- Sequencing of two validation steps: the second only runs when the
first did not raise; messages accumulate (JS pushes them into the global
list as it goes, so messages recorded before an exception are kept). -/
def vseq (a b : List VMsg × Option JsError) : List VMsg × Option JsError :=
  match a with
  | (es, none) => (es ++ b.1, b.2)
  | (es, some e) => (es, some e)

/-- `validateNotEmpty`: field must exist, be a string, and be non-empty
(`app.js` lines 81-89). -/
def validateNotEmptyMsgs (s : Struct) (n : String) : List VMsg :=
  match lookupField s n with
  | none => [.fieldMissing n]
  | some (.str f) => if f = "" then [.fieldEmpty n] else []
  | some _ => [.fieldNotString n]

/-- `validateIsBoolean`: the field must be the literal `true` or `false`
(`app.js` lines 93-97); a missing field also fails. -/
def validateIsBooleanMsgs (s : Struct) (n : String) : List VMsg :=
  match lookupField s n with
  | some (.bool _) => []
  | _ => [.fieldNotBoolean n]

/-- One position of the date regex
`[0-9]{4}-((0[1-9])|(1[0-2]))-((0[1-9])|([1-2][0-9])|(3[0-1]))`:
four digits, dash, month 01-12, dash, day 01-31. -/
def dateOk (y1 y2 y3 y4 m1 m2 d1 d2 : Char) : Bool :=
  y1.isDigit && y2.isDigit && y3.isDigit && y4.isDigit &&
  ((m1 == '0' && m2.isDigit && m2 != '0') ||
   (m1 == '1' && (m2 == '0' || m2 == '1' || m2 == '2'))) &&
  ((d1 == '0' && d2.isDigit && d2 != '0') ||
   ((d1 == '1' || d1 == '2') && d2.isDigit) ||
   (d1 == '3' && (d2 == '0' || d2 == '1')))

/-- Whether the date regex matches at the start of this character list
(the rest of the list is ignored: the regex is unanchored). -/
def dateAt : List Char → Bool
  | y1 :: y2 :: y3 :: y4 :: h1 :: m1 :: m2 :: h2 :: d1 :: d2 :: _ =>
      h1 == '-' && h2 == '-' && dateOk y1 y2 y3 y4 m1 m2 d1 d2
  | _ => false

/-- `field.match(dateRegex)` is truthy: the unanchored regex matches at
some position of the string. -/
def matchDate (s : String) : Bool :=
  s.data.tails.any dateAt

/-- `field.match(/([a-zA-Z0-9]){16}/)` is truthy: sixteen consecutive
alphanumeric characters occur somewhere in the string (unanchored). -/
def matchAlnum16 (s : String) : Bool :=
  s.data.tails.any (fun t => decide (16 ≤ t.length) && (t.take 16).all Char.isAlphanum)

/-- `validateIsDate` (`app.js` lines 100-106): missing field is an error;
a string field is matched against the date regex; on a non-string field
`field.match` is not a function, raising a `TypeError`. -/
def validateIsDateRes (s : Struct) (n : String) : List VMsg × Option JsError :=
  match lookupField s n with
  | none => ([.fieldMissing n], none)
  | some (.str f) => (if matchDate f then [] else [.notValidDate n f], none)
  | some _ => ([], some (.typeError "field.match is not a function"))

/-- The configuration record for one image kind (`config.json`). -/
structure ImgConstraint : Type where
  filename : String
  ctype : String
  width : Int
  height : Int

/-- The global configuration (`config.json`), out of scope for the spec
but shaping the validator calls. -/
structure Config : Type where
  directory : String
  regions : List String
  boxart : ImgConstraint
  icon : ImgConstraint
  dataFilename : String
  screenshotsDirname : String
  screenshots : ImgConstraint
  savesDirname : String

/-- Model of one image file on disk: the result of `image-type` on its
first 12 bytes (`none` when the chunk cannot be classified as any known
format, in which case the library returns `null`), and the dimensions
reported by `image-size`. -/
structure ImgFile : Type where
  detected : Option String
  width : Int
  height : Int

/-- `validateImage` (`app.js` lines 26-43): missing file records a
not-found error; otherwise the detected type is compared with the
expected MIME type and the dimensions with the expected ones.  When
`image-type` cannot classify the chunk it returns `null`, and reading
`.mime` of `null` raises a `TypeError`. -/
def validateImage (p : String) (ex : Bool) (img : ImgFile) (c : ImgConstraint) :
    List VMsg × Option JsError :=
  if ex = false then ([.imageNotFound p], none)
  else
    match img.detected with
    | none => ([], some (.typeError "Cannot read property mime of null"))
    | some t =>
        ((if t ≠ c.ctype then [.imageFormat t c.ctype] else []) ++
          (if img.width ≠ c.width ∨ img.height ≠ c.height then
            [.imageDims p img.width img.height c.width c.height] else []),
          none)

/-- Loop body of `validateDirImages`: each file in the directory listing
is validated in order (listed files exist). -/
def dirImagesLoop (p : String) (c : ImgConstraint) :
    List (String × ImgFile) → List VMsg × Option JsError
  | [] => ([], none)
  | (name, img) :: rest =>
      vseq (validateImage (p ++ "/" ++ name) true img c) (dirImagesLoop p c rest)

/-- `validateDirImages` (`app.js` lines 47-57): a missing screenshots
directory is silently fine; otherwise every file inside is validated. -/
def validateDirImages (p : String) (files : Option (List (String × ImgFile)))
    (c : ImgConstraint) : List VMsg × Option JsError :=
  match files with
  | none => ([], none)
  | some fs => dirImagesLoop p c fs

/-- A parse failure reported by `toml.parse`: the line and message the
thrown object carries. -/
structure PErr : Type where
  line : Int
  message : String

/-- The `github_issues` check (`app.js` lines 135-148): if present it
must be an array, and every element with `typeof !== "number"` records
its own error. -/
def githubCheck (doc : Struct) : List VMsg :=
  match lookupField doc "github_issues" with
  | none => []
  | some (.arr l) =>
      l.filterMap (fun x => if isNumberValue x then none else some .githubEntryNotNumber)
  | some _ => [.githubNotArray]

/-- Global header checks of `validateTOML`: `title`, `description`,
`github_issues` (`app.js` lines 133-148). -/
def headerErrs (doc : Struct) : List VMsg :=
  validateNotEmptyMsgs doc "title" ++ validateNotEmptyMsgs doc "description" ++
    githubCheck doc

/-- The release `title` check (`app.js` lines 159-165), `k` is the
1-based release number: a value whose `length` is not 16 records a
length error; otherwise the pattern is checked — on a non-string value
of length 16 `field.match` raises a `TypeError`. -/
def releaseTitleField (k : Nat) (v : TomlValue) : List VMsg × Option JsError :=
  if jsLength v = some 16 then
    match v with
    | .str f => (if matchAlnum16 f then [] else [.releaseTitlePat k], none)
    | _ => ([], some (.typeError "field.match is not a function"))
  else ([.releaseTitleLen k], none)

/-- The release `region` check (`app.js` lines 166-170):
`config.regions.indexOf(field)` finds only an equal string. -/
def regionField (cfg : Config) (k : Nat) (v : TomlValue) : List VMsg :=
  match v with
  | .str s => if cfg.regions.contains s then [] else [.releaseRegion k s]
  | v => [.releaseRegion k (jsToString v)]

/-- The release title check including the existence test
(`validateContents(release, "title", ...)`). -/
def titlePart (k : Nat) (s : Struct) : List VMsg × Option JsError :=
  match lookupField s "title" with
  | none => ([.fieldMissing "title"], none)
  | some v => releaseTitleField k v

/-- The release region check including the existence test
(`validateContents(release, "region", ...)`). -/
def regionPart (cfg : Config) (k : Nat) (s : Struct) : List VMsg :=
  match lookupField s "region" with
  | none => [.fieldMissing "region"]
  | some v => regionField cfg k v

/-- One iteration of the releases loop (`app.js` lines 156-173). -/
def releaseCheck (cfg : Config) (k : Nat) (r : TomlValue) : List VMsg × Option JsError :=
  vseq (titlePart k r.asStruct)
    (vseq (regionPart cfg k r.asStruct, none) (validateIsDateRes r.asStruct "release_date"))

/-- The releases loop; `i` counts already-processed entries. -/
def releasesLoop (cfg : Config) (i : Nat) : List TomlValue → List VMsg × Option JsError
  | [] => ([], none)
  | r :: rest => vseq (releaseCheck cfg (i + 1) r) (releasesLoop cfg (i + 1) rest)

/-- The `releases` section of `validateTOML` (`app.js` lines 154-176). -/
def releasesPart (cfg : Config) (doc : Struct) : List VMsg × Option JsError :=
  match lookupField doc "releases" with
  | none => ([.noReleases], none)
  | some v => releasesLoop cfg 0 v.elems

/-- The testcase `version` check (`app.js` lines 195-201). -/
def versionField (k : Nat) (v : TomlValue) : List VMsg × Option JsError :=
  if jsLength v = some 12 then
    match v with
    | .str f => (if f.startsWith "HEAD-" then [] else [.tcVersionSrc k], none)
    | _ => ([], some (.typeError "test.startsWith is not a function"))
  else ([.tcVersionLen k], none)

/-- The testcase `version` check including the existence test
(`validateContents(testcase, "version", ...)`). -/
def versionPart (k : Nat) (s : Struct) : List VMsg × Option JsError :=
  match lookupField s "version" with
  | none => ([.fieldMissing "version"], none)
  | some v => versionField k v

/-- The `maxCompatibility` update of one testcase (`app.js` lines
187-192): when the field is present, `parseInt` it; `NaN < m` is false,
so an unparseable value leaves the running minimum unchanged. -/
def compatFold (m : Int) (s : Struct) : Int :=
  match lookupField s "compatibility" with
  | none => m
  | some v =>
      match jsParseInt v with
      | none => m
      | some n => if n < m then n else m

/-- Result of the testcases loop: recorded messages, the final
`maxCompatibility`, and whether an exception escaped. -/
structure TcOut : Type where
  errs : List VMsg
  mmin : Int
  exn : Option JsError

/-- The testcases loop (`app.js` lines 181-208): per entry, the
`compatibility` presence check and minimum update, then the `date`,
`version` and `author` checks; an exception aborts the loop with the
messages recorded so far and the minimum as updated so far. -/
def tcLoop (i : Nat) (m : Int) : List TomlValue → TcOut
  | [] => ⟨[], m, none⟩
  | t :: rest =>
      let s := t.asStruct
      let e1 := validateNotEmptyMsgs s "compatibility"
      let m2 := compatFold m s
      let d := validateIsDateRes s "date"
      match d.2 with
      | some ex => ⟨e1 ++ d.1, m2, some ex⟩
      | none =>
          let vres := versionPart (i + 1) s
          match vres.2 with
          | some ex => ⟨e1 ++ d.1 ++ vres.1, m2, some ex⟩
          | none =>
              let e4 := validateNotEmptyMsgs s "author"
              let o := tcLoop (i + 1) m2 rest
              ⟨e1 ++ d.1 ++ vres.1 ++ e4 ++ o.errs, o.mmin, o.exn⟩

/-- The `testcases` section of `validateTOML` (`app.js` lines 178-208):
`maxCompatibility` starts at the sentinel 999. -/
def testcasesPart (doc : Struct) : TcOut :=
  match lookupField doc "testcases" with
  | none => ⟨[.noTestcases], 999, none⟩
  | some v => tcLoop 0 999 v.elems

/-- The conditional resource-requirement checks (`app.js` lines
210-215): only run when the running minimum is below 5. -/
def boolPart (doc : Struct) (m : Int) : List VMsg :=
  if m < 5 then
    validateIsBooleanMsgs doc "needs_system_files" ++
      validateIsBooleanMsgs doc "needs_shared_font"
  else []

/-- `validateTOML` (`app.js` lines 117-216) on the modelled filesystem:
`ex` is whether the file exists, `parsed` the outcome of `toml.parse` on
its contents. -/
def validateTOML (cfg : Config) (p : String) (ex : Bool) (parsed : Except PErr Struct) :
    List VMsg × Option JsError :=
  if ex = false then ([.tomlNotFound p], none)
  else
    match parsed with
    | .error e => ([.tomlParseError e.line e.message], none)
    | .ok doc =>
        let h := headerErrs doc
        let rel := releasesPart cfg doc
        match rel.2 with
        | some ex2 => (h ++ rel.1, some ex2)
        | none =>
            let t := testcasesPart doc
            match t.exn with
            | some ex2 => (h ++ rel.1 ++ t.errs, some ex2)
            | none => (h ++ rel.1 ++ t.errs ++ boolPart doc t.mmin, none)

/-- The files of a saves directory, as the program sees them: the
directory listing, and for each file its TOML parse outcome (for `.dat`
files) and its leading bytes (for `.zip` files). -/
structure SavesData : Type where
  files : List String
  datDoc : String → Except PErr Struct
  zipBytes : String → List Nat

/-- Index of the last '.' in a character list, `none` when absent
(JS `lastIndexOf` returns -1). -/
def lastDotIndex : List Char → Option Nat
  | [] => none
  | c :: rest =>
      match lastDotIndex rest with
      | some i => some (i + 1)
      | none => if c = '.' then some 0 else none

/-- `file.substr(0, file.lastIndexOf("."))`: everything before the last
dot; a file without a dot yields `""` (`substr(0, -1)` is empty). -/
def stripExt (f : String) : String :=
  match lastDotIndex f.data with
  | none => ""
  | some i => String.mk (f.data.take i)

/-- JS `Array.prototype.filter` with an `(element, index)` callback,
running the index from `i`. -/
def jsFilterIdx (p : String → Nat → Bool) : List String → Nat → List String
  | [], _ => []
  | x :: xs, i =>
      if p x i then x :: jsFilterIdx p xs (i + 1) else jsFilterIdx p xs (i + 1)

/-- `l.filter((element, i) => l.indexOf(element) === i)`: keep the first
occurrence of every element (`app.js` lines 267-269). -/
def dedupFirst (l : List String) : List String :=
  jsFilterIdx (fun e i => l.indexOf e = i) l 0

/-- The `title_id` check of a save's metadata (`app.js` lines 233-239),
shaped like the release title check. -/
def saveTitleIdField (v : TomlValue) : List VMsg × Option JsError :=
  if jsLength v = some 16 then
    match v with
    | .str f => (if matchAlnum16 f then [] else [.saveTitleIdPat], none)
    | _ => ([], some (.typeError "field.match is not a function"))
  else ([.saveTitleIdLen], none)

/-- `validateSaveTOML` (`app.js` lines 219-240): parse failure records
one error and stops; otherwise `title`, `description`, `author` must be
non-empty strings and `title_id` a 16-character alphanumeric ID. -/
def validateSaveTOML (parsed : Except PErr Struct) : List VMsg × Option JsError :=
  match parsed with
  | .error e => ([.tomlParseError e.line e.message], none)
  | .ok doc =>
      let e1 := validateNotEmptyMsgs doc "title" ++ validateNotEmptyMsgs doc "description" ++
        validateNotEmptyMsgs doc "author"
      let tPart : List VMsg × Option JsError :=
        match lookupField doc "title_id" with
        | none => ([.fieldMissing "title_id"], none)
        | some v => saveTitleIdField v
      vseq (e1, none) tPart

/-- The fixed archive signature `50 4B 03 04`. -/
def zipHeader : List Nat := [0x50, 0x4B, 0x03, 0x04]

/-- `validateSaveZip` (`app.js` lines 243-252): the first 4 bytes of the
file are compared byte-for-byte with the zip signature (a shorter file
compares unequal). -/
def validateSaveZip (p : String) (bytes : List Nat) : List VMsg :=
  if bytes.take 4 = zipHeader then [] else [.notZip p]

/-- The `.dat` half of one save group (`app.js` lines 274-276): a
missing file records one error and skips the metadata validation. -/
def datPart (dirPath : String) (d : SavesData) (g : String) : List VMsg × Option JsError :=
  if d.files.contains (g ++ ".dat") then validateSaveTOML (d.datDoc (g ++ ".dat"))
  else ([.fileNotExist (dirPath ++ "/" ++ g ++ ".dat")], none)

/-- The `.zip` half of one save group (`app.js` lines 277-279): a
missing file records one error and skips the signature validation. -/
def zipPart (dirPath : String) (d : SavesData) (g : String) : List VMsg × Option JsError :=
  if d.files.contains (g ++ ".zip") then
    (validateSaveZip (dirPath ++ "/" ++ g ++ ".zip") (d.zipBytes (g ++ ".zip")), none)
  else ([.fileNotExist (dirPath ++ "/" ++ g ++ ".zip")], none)

/-- One iteration of the groups loop of `validateSaves`. -/
def saveGroupCheck (dirPath : String) (d : SavesData) (g : String) :
    List VMsg × Option JsError :=
  vseq (datPart dirPath d g) (zipPart dirPath d g)

/-- The groups loop of `validateSaves` (`app.js` lines 272-280). -/
def savesLoop (dirPath : String) (d : SavesData) : List String → List VMsg × Option JsError
  | [] => ([], none)
  | g :: rest => vseq (saveGroupCheck dirPath d g) (savesLoop dirPath d rest)

/-- The save groups: extension-stripped file names, first occurrences
kept (`app.js` lines 262-269). -/
def saveGroups (d : SavesData) : List String :=
  dedupFirst (d.files.map stripExt)

/-- `validateSaves` (`app.js` lines 255-281): absent directory is fine;
otherwise each group is checked. -/
def validateSaves (dirPath : String) (ex : Bool) (d : SavesData) :
    List VMsg × Option JsError :=
  if ex = false then ([], none)
  else savesLoop dirPath d (saveGroups d)

/-- Everything the per-game validation reads from the filesystem. -/
structure GameFS : Type where
  name : String
  boxartExists : Bool
  boxart : ImgFile
  iconExists : Bool
  icon : ImgFile
  tomlExists : Bool
  toml : Except PErr Struct
  screenshots : Option (List (String × ImgFile))
  savesExists : Bool
  saves : SavesData

/-- The body of the per-game loop (`app.js` lines 294-311): boxart,
icon, metadata, screenshots, saves — in that order, each able to raise. -/
def validateGameBody (cfg : Config) (g : GameFS) : List VMsg × Option JsError :=
  let dir := cfg.directory ++ "/" ++ g.name
  vseq (validateImage (dir ++ "/" ++ cfg.boxart.filename) g.boxartExists g.boxart cfg.boxart)
    (vseq (validateImage (dir ++ "/" ++ cfg.icon.filename) g.iconExists g.icon cfg.icon)
      (vseq (validateTOML cfg (dir ++ "/" ++ cfg.dataFilename) g.tomlExists g.toml)
        (vseq (validateDirImages (dir ++ "/" ++ cfg.screenshotsDirname) g.screenshots
            cfg.screenshots)
          (validateSaves (dir ++ "/" ++ cfg.savesDirname) g.savesExists g.saves))))

/-- One recorded validation error: the game it is attributed to and the
message (`app.js` lines 283-285). -/
structure VRecord : Type where
  game : String
  error : VMsg
  deriving DecidableEq

/-- Console rendering of a caught exception (`console.error(ex)`). -/
def renderExn : JsError → String
  | .typeError m => "TypeError: " ++ m

/-- One iteration of the game loop (`app.js` lines 288-317): reserved
folders are skipped; an exception is caught at this boundary, the
messages recorded until then kept and a warning logged. -/
def runGame (cfg : Config) (g : GameFS) : List VRecord × List String :=
  if g.name = ".git" ∨ g.name = "_validation" then ([], [])
  else
    match validateGameBody cfg g with
    | (es, none) => (es.map (fun m => ⟨g.name, m⟩), [])
    | (es, some ex) =>
        (es.map (fun m => ⟨g.name, m⟩),
          [g.name ++ " has encountered an unexpected error.", renderExn ex])

/-- The whole game loop: every listed directory is processed; errors and
console warnings accumulate in order. -/
def runAll (cfg : Config) : List GameFS → List VRecord × List String
  | [] => ([], [])
  | g :: rest =>
      let r := runGame cfg g
      let o := runAll cfg rest
      (r.1 ++ o.1, r.2 ++ o.2)

/-- One step of the `group-by` package: push the record onto its game's
group, creating the group at the end on first sight. -/
def gbInsert (acc : List (String × List VRecord)) (r : VRecord) :
    List (String × List VRecord) :=
  if (acc.map Prod.fst).contains r.game then
    acc.map (fun pr => if pr.1 = r.game then (pr.1, pr.2 ++ [r]) else pr)
  else acc ++ [(r.game, [r])]

/-- `groupBy(errors, "game")`: a JS object keyed by game name, keys in
first-occurrence order, each group in record order. -/
def groupByGame (l : List VRecord) : List (String × List VRecord) :=
  l.foldl gbInsert []

/-- The end-of-run reporter (`app.js` lines 319-338): the printed lines
and the process exit code. -/
def report (errors : List VRecord) : List String × Nat :=
  if 0 < errors.length then
    ("Validation completed with errors." ::
      (groupByGame errors).flatMap
        (fun pr => ("  " ++ pr.1 ++ ":") :: pr.2.map (fun r => "   - " ++ render r.error)),
      1)
  else (["Validation completed without errors."], 0)

/-! ## Specification-side definitions

These are written from the spec's words, to be compared with the
behaviour of the embedded code. -/

/-- The distinct values of a list in order of first occurrence — the
spec's notion of "every distinct basename produces a group (order =
first occurrence)" and of the reporter's grouping keys. -/
def keysInOrder : List String → List String
  | [] => []
  | x :: xs => x :: (keysInOrder xs).filter (fun y => y ≠ x)

/-- All successfully parsed `compatibility` values of a testcase list —
the spec's "all parsed compatibility values". -/
def parsedCompats (l : List TomlValue) : List Int :=
  l.filterMap (fun t => (lookupField t.asStruct "compatibility").bind jsParseInt)

/-- A ten-character `YYYY-MM-DD` block with month 01-12 and day 01-31. -/
def isDateChunk (l : List Char) : Prop :=
  ∃ y1 y2 y3 y4 m1 m2 d1 d2,
    l = [y1, y2, y3, y4, '-', m1, m2, '-', d1, d2] ∧
      dateOk y1 y2 y3 y4 m1 m2 d1 d2 = true

/-- The spec's "the field contains a substring matching YYYY-MM-DD":
some decomposition of the string exhibits a date block, with arbitrary
characters before and after. -/
def containsDate (s : String) : Prop :=
  ∃ pre mid post, s.data = pre ++ mid ++ post ∧ isDateChunk mid

/-- The fold step of the running minimum:
`if (compat < maxCompatibility) maxCompatibility = compat`. -/
def jsMinFold (m n : Int) : Int :=
  if n < m then n else m

/-! ## Concrete inputs used by witnesses and counterexamples -/

/-- A concrete configuration (shaped like `config.json`). -/
def cfgW : Config where
  directory := "games"
  regions := ["EUR", "USA", "JPN"]
  boxart := ⟨"boxart.png", "image/png", 328, 300⟩
  icon := ⟨"icon.png", "image/png", 48, 48⟩
  dataFilename := "game.dat"
  screenshotsDirname := "screenshots"
  screenshots := ⟨"", "image/png", 400, 240⟩
  savesDirname := "savefiles"

/-- A document whose only testcase has `compatibility = "1000"`: every
parsed compatibility value exceeds the 999 sentinel. -/
def docMin1000 : Struct :=
  [("title", .str "A"), ("description", .str "B"), ("releases", .arr []),
    ("testcases", .arr [.table [("compatibility", .str "1000")]])]

/-- A document whose only testcase has minimum compatibility 0 but a
non-string `date`, so the testcase loop raises before the
resource-requirement checks are reached. -/
def docCrash : Struct :=
  [("title", .str "A"), ("description", .str "B"), ("releases", .arr []),
    ("testcases", .arr [.table [("compatibility", .str "0"), ("date", .int 5)]])]

/-- A document whose `github_issues` list holds the float `1.5`:
not an integer, but `typeof` is `"number"`. -/
def docGithubFloat : Struct :=
  [("title", .str "A"), ("description", .str "B"),
    ("github_issues", .arr [.float "1.5"]),
    ("releases", .arr []), ("testcases", .arr [])]

/-- A fully well-formed testcase with compatibility 3 and none of the
resource-requirement booleans declared. -/
def docCompat3 : Struct :=
  [("title", .str "A"), ("description", .str "B"), ("releases", .arr []),
    ("testcases", .arr
      [.table [("compatibility", .str "3"), ("date", .str "2020-01-02"),
        ("version", .str "HEAD-abcdefg"), ("author", .str "me")]])]

/-- A document whose only testcase has the unparseable compatibility
string `"abc"`. -/
def docCompatAbc : Struct :=
  [("title", .str "A"), ("description", .str "B"), ("releases", .arr []),
    ("testcases", .arr
      [.table [("compatibility", .str "abc"), ("date", .str "2020-01-02"),
        ("version", .str "HEAD-abcdefg"), ("author", .str "me")]])]

/-- A release whose title is present but 5 characters long. -/
def relShort : Struct := [("title", .str "short")]

/-- A saves directory with a complete group `save1` (correct signature)
and a group `save2` that has only a bad `.zip`. -/
def savesW : SavesData where
  files := ["save1.dat", "save1.zip", "save2.zip"]
  datDoc := fun _ =>
    .ok [("title", .str "T"), ("description", .str "D"), ("author", .str "A"),
      ("title_id", .str "0004000000030500")]
  zipBytes := fun f => if f = "save1.zip" then [0x50, 0x4B, 0x03, 0x04, 0] else [1, 2, 3, 4, 5]

/-- A game folder whose only problem is a missing metadata file. -/
def gGoodW : GameFS where
  name := "good"
  boxartExists := true
  boxart := ⟨some "image/png", 328, 300⟩
  iconExists := true
  icon := ⟨some "image/png", 48, 48⟩
  tomlExists := false
  toml := .ok []
  screenshots := none
  savesExists := false
  saves := ⟨[], fun _ => .ok [], fun _ => []⟩

/-- Like `gGoodW` with another name. -/
def gGood2W : GameFS :=
  { gGoodW with name := "good2" }

/-- A game folder whose boxart exists but cannot be classified by
`image-type`: validating it raises a `TypeError`. -/
def gBadW : GameFS :=
  { gGoodW with name := "bad", boxart := ⟨none, 328, 300⟩ }

/-- A structure holding a date field with characters around the date. -/
def dateStructW : Struct := [("release_date", .str "xx2020-01-02yy")]

/-- The error list used by the reporter witness. -/
def errsW : List VRecord :=
  [⟨"g1", .noReleases⟩, ⟨"g2", .noTestcases⟩, ⟨"g1", .githubNotArray⟩]

/-! ## Helper lemmas -/

theorem vseq_of_none {a b : List VMsg × Option JsError} (h : a.2 = none) :
    vseq a b = (a.1 ++ b.1, b.2) := by
  unfold vseq
  rcases a with ⟨es, x⟩
  cases x with
  | none => rfl
  | some e => simp at h

theorem vseq_of_some {a b : List VMsg × Option JsError} {e : JsError} (h : a.2 = some e) :
    vseq a b = (a.1, some e) := by
  unfold vseq
  rcases a with ⟨es, x⟩
  cases x with
  | none => simp at h
  | some f => simp_all

theorem mem_vseq {a b : List VMsg × Option JsError} {m : VMsg} (h : m ∈ (vseq a b).1) :
    m ∈ a.1 ∨ m ∈ b.1 := by
  unfold vseq at h
  rcases a with ⟨es, x⟩
  cases x with
  | none => simpa using h
  | some e => exact Or.inl h

theorem mem_validateNotEmptyMsgs {s : Struct} {n : String} {m : VMsg}
    (h : m ∈ validateNotEmptyMsgs s n) :
    m = .fieldMissing n ∨ m = .fieldEmpty n ∨ m = .fieldNotString n := by
  unfold validateNotEmptyMsgs at h
  split at h
  · simp at h; exact Or.inl h
  · split at h <;> simp at h
    exact Or.inr (Or.inl h)
  · simp at h; exact Or.inr (Or.inr h)

theorem mem_githubCheck {doc : Struct} {m : VMsg} (h : m ∈ githubCheck doc) :
    m = .githubNotArray ∨ m = .githubEntryNotNumber := by
  unfold githubCheck at h
  split at h
  · simp at h
  · simp only [List.mem_filterMap] at h
    rcases h with ⟨x, -, hx⟩
    split at hx
    · simp at hx
    · simp at hx; exact Or.inr hx.symm
  · simp at h; exact Or.inl h

theorem mem_headerErrs {doc : Struct} {m : VMsg} (h : m ∈ headerErrs doc) :
    (∃ n, m = .fieldMissing n) ∨ (∃ n, m = .fieldEmpty n) ∨ (∃ n, m = .fieldNotString n) ∨
      m = .githubNotArray ∨ m = .githubEntryNotNumber := by
  unfold headerErrs at h
  rcases List.mem_append.1 h with h1 | h1
  · rcases List.mem_append.1 h1 with h2 | h2 <;>
      rcases mem_validateNotEmptyMsgs h2 with h3 | h3 | h3 <;> subst h3 <;>
        simp
  · rcases mem_githubCheck h1 with h3 | h3 <;> subst h3 <;> simp

theorem mem_validateIsDateRes {s : Struct} {n : String} {m : VMsg}
    (h : m ∈ (validateIsDateRes s n).1) :
    m = .fieldMissing n ∨ ∃ f, m = .notValidDate n f := by
  unfold validateIsDateRes at h
  split at h
  · simp at h; exact Or.inl h
  · next f _ => split at h <;> simp at h
                exact Or.inr ⟨f, h⟩
  · simp at h

theorem mem_releaseTitleField {k : Nat} {v : TomlValue} {m : VMsg}
    (h : m ∈ (releaseTitleField k v).1) :
    m = .releaseTitleLen k ∨ m = .releaseTitlePat k := by
  unfold releaseTitleField at h
  split at h
  · split at h
    · split at h <;> simp at h
      exact Or.inr h
    · simp at h
  · simp at h; exact Or.inl h

theorem mem_regionField {cfg : Config} {k : Nat} {v : TomlValue} {m : VMsg}
    (h : m ∈ regionField cfg k v) : ∃ f, m = .releaseRegion k f := by
  unfold regionField at h
  split at h
  · next s => split at h <;> simp at h
              exact ⟨s, h⟩
  · simp at h; exact ⟨_, h⟩

theorem mem_versionField {k : Nat} {v : TomlValue} {m : VMsg}
    (h : m ∈ (versionField k v).1) :
    m = .tcVersionLen k ∨ m = .tcVersionSrc k := by
  unfold versionField at h
  split at h
  · split at h
    · split at h <;> simp at h
      exact Or.inr h
    · simp at h
  · simp at h; exact Or.inl h

theorem mem_titlePart {k : Nat} {s : Struct} {m : VMsg} (h : m ∈ (titlePart k s).1) :
    m = .fieldMissing "title" ∨ m = .releaseTitleLen k ∨ m = .releaseTitlePat k := by
  unfold titlePart at h
  split at h
  · simp at h; exact Or.inl h
  · exact Or.inr (mem_releaseTitleField h)

theorem mem_regionPart {cfg : Config} {k : Nat} {s : Struct} {m : VMsg}
    (h : m ∈ regionPart cfg k s) :
    m = .fieldMissing "region" ∨ ∃ f, m = .releaseRegion k f := by
  unfold regionPart at h
  split at h
  · simp at h; exact Or.inl h
  · exact Or.inr (mem_regionField h)

theorem mem_releaseCheck {cfg : Config} {k : Nat} {r : TomlValue} {m : VMsg}
    (h : m ∈ (releaseCheck cfg k r).1) :
    (∃ n, m = .fieldMissing n) ∨ m = .releaseTitleLen k ∨ m = .releaseTitlePat k ∨
      (∃ f, m = .releaseRegion k f) ∨ ∃ f, m = .notValidDate "release_date" f := by
  unfold releaseCheck at h
  rcases mem_vseq h with h1 | h1
  · rcases mem_titlePart h1 with h2 | h2 | h2
    · exact Or.inl ⟨_, h2⟩
    · exact Or.inr (Or.inl h2)
    · exact Or.inr (Or.inr (Or.inl h2))
  · rcases mem_vseq h1 with h2 | h2
    · rcases mem_regionPart h2 with h3 | ⟨f, h3⟩
      · exact Or.inl ⟨_, h3⟩
      · exact Or.inr (Or.inr (Or.inr (Or.inl ⟨f, h3⟩)))
    · rcases mem_validateIsDateRes h2 with h3 | ⟨f, h3⟩
      · exact Or.inl ⟨_, h3⟩
      · exact Or.inr (Or.inr (Or.inr (Or.inr ⟨f, h3⟩)))

theorem mem_releasesLoop {cfg : Config} {m : VMsg} :
    ∀ {l : List TomlValue} {i : Nat}, m ∈ (releasesLoop cfg i l).1 →
      (∃ n, m = .fieldMissing n) ∨ (∃ k, m = .releaseTitleLen k) ∨
        (∃ k, m = .releaseTitlePat k) ∨ (∃ k f, m = .releaseRegion k f) ∨
        ∃ f, m = .notValidDate "release_date" f := by
  intro l
  induction l with
  | nil => intro i h; simp [releasesLoop] at h
  | cons r rest ih =>
      intro i h
      unfold releasesLoop at h
      rcases mem_vseq h with h1 | h1
      · rcases mem_releaseCheck h1 with h2 | h2 | h2 | ⟨f, h2⟩ | ⟨f, h2⟩
        · exact Or.inl h2
        · exact Or.inr (Or.inl ⟨_, h2⟩)
        · exact Or.inr (Or.inr (Or.inl ⟨_, h2⟩))
        · exact Or.inr (Or.inr (Or.inr (Or.inl ⟨_, f, h2⟩)))
        · exact Or.inr (Or.inr (Or.inr (Or.inr ⟨f, h2⟩)))
      · exact ih h1

theorem mem_releasesPart {cfg : Config} {doc : Struct} {m : VMsg}
    (h : m ∈ (releasesPart cfg doc).1) :
    m = .noReleases ∨ (∃ n, m = .fieldMissing n) ∨ (∃ k, m = .releaseTitleLen k) ∨
      (∃ k, m = .releaseTitlePat k) ∨ (∃ k f, m = .releaseRegion k f) ∨
      ∃ f, m = .notValidDate "release_date" f := by
  unfold releasesPart at h
  split at h
  · simp at h; exact Or.inl h
  · exact Or.inr (mem_releasesLoop h)

theorem mem_versionPart {k : Nat} {s : Struct} {m : VMsg}
    (h : m ∈ (versionPart k s).1) :
    m = .fieldMissing "version" ∨ m = .tcVersionLen k ∨ m = .tcVersionSrc k := by
  unfold versionPart at h
  split at h
  · simp at h; exact Or.inl h
  · exact Or.inr (mem_versionField h)

theorem mem_tcLoop {m : VMsg} :
    ∀ {l : List TomlValue} {i : Nat} {m0 : Int}, m ∈ (tcLoop i m0 l).errs →
      (∃ n, m = .fieldMissing n) ∨ (∃ n, m = .fieldEmpty n) ∨
        (∃ n, m = .fieldNotString n) ∨ (∃ f, m = .notValidDate "date" f) ∨
        (∃ k, m = .tcVersionLen k) ∨ ∃ k, m = .tcVersionSrc k := by
  intro l
  induction l with
  | nil => intro i m0 h; simp [tcLoop] at h
  | cons t rest ih =>
      intro i m0 h
      have hc : ∀ {h1 : VMsg},
          h1 ∈ validateNotEmptyMsgs t.asStruct "compatibility" ∨
            h1 ∈ (validateIsDateRes t.asStruct "date").1 →
          (∃ n, h1 = .fieldMissing n) ∨ (∃ n, h1 = .fieldEmpty n) ∨
            (∃ n, h1 = .fieldNotString n) ∨ (∃ f, h1 = .notValidDate "date" f) ∨
            (∃ k, h1 = .tcVersionLen k) ∨ ∃ k, h1 = .tcVersionSrc k := by
        intro h1 hh
        rcases hh with hh | hh
        · rcases mem_validateNotEmptyMsgs hh with h2 | h2 | h2
          · exact Or.inl ⟨_, h2⟩
          · exact Or.inr (Or.inl ⟨_, h2⟩)
          · exact Or.inr (Or.inr (Or.inl ⟨_, h2⟩))
        · rcases mem_validateIsDateRes hh with h2 | ⟨f, h2⟩
          · exact Or.inl ⟨_, h2⟩
          · exact Or.inr (Or.inr (Or.inr (Or.inl ⟨f, h2⟩)))
      have hv : ∀ {h1 : VMsg}, h1 ∈ (versionPart (i + 1) t.asStruct).1 →
          (∃ n, h1 = .fieldMissing n) ∨ (∃ n, h1 = .fieldEmpty n) ∨
            (∃ n, h1 = .fieldNotString n) ∨ (∃ f, h1 = .notValidDate "date" f) ∨
            (∃ k, h1 = .tcVersionLen k) ∨ ∃ k, h1 = .tcVersionSrc k := by
        intro h1 hh
        rcases mem_versionPart hh with h2 | h2 | h2
        · exact Or.inl ⟨_, h2⟩
        · exact Or.inr (Or.inr (Or.inr (Or.inr (Or.inl ⟨_, h2⟩))))
        · exact Or.inr (Or.inr (Or.inr (Or.inr (Or.inr ⟨_, h2⟩))))
      unfold tcLoop at h
      dsimp only at h
      split at h
      · dsimp only at h
        exact hc (List.mem_append.1 h)
      · split at h <;> dsimp only at h
        · rcases List.mem_append.1 h with h1 | h1
          · exact hc (List.mem_append.1 h1)
          · exact hv h1
        · rcases List.mem_append.1 h with h1 | h1
          · rcases List.mem_append.1 h1 with h2 | h2
            · rcases List.mem_append.1 h2 with h3 | h3
              · exact hc (List.mem_append.1 h3)
              · exact hv h3
            · rcases mem_validateNotEmptyMsgs h2 with h3 | h3 | h3
              · exact Or.inl ⟨_, h3⟩
              · exact Or.inr (Or.inl ⟨_, h3⟩)
              · exact Or.inr (Or.inr (Or.inl ⟨_, h3⟩))
          · exact ih h1

theorem mem_boolPart {doc : Struct} {m0 : Int} {m : VMsg} (h : m ∈ boolPart doc m0) :
    m = .fieldNotBoolean "needs_system_files" ∨ m = .fieldNotBoolean "needs_shared_font" := by
  unfold boolPart at h
  split at h
  · rcases List.mem_append.1 h with h1 | h1 <;> unfold validateIsBooleanMsgs at h1 <;>
      split at h1 <;> simp at h1 <;> simp [h1]
  · simp at h

theorem fieldNotBoolean_notMem_headerErrs {doc : Struct} {n : String} :
    VMsg.fieldNotBoolean n ∉ headerErrs doc := by
  intro h
  rcases mem_headerErrs h with ⟨n2, h1⟩ | ⟨n2, h1⟩ | ⟨n2, h1⟩ | h1 | h1 <;> simp at h1

theorem fieldNotBoolean_notMem_releasesPart {cfg : Config} {doc : Struct} {n : String} :
    VMsg.fieldNotBoolean n ∉ (releasesPart cfg doc).1 := by
  intro h
  rcases mem_releasesPart h with h1 | ⟨n2, h1⟩ | ⟨k, h1⟩ | ⟨k, h1⟩ | ⟨k, f, h1⟩ | ⟨f, h1⟩ <;>
    simp at h1

theorem fieldNotBoolean_notMem_tcErrs {doc : Struct} {n : String} :
    VMsg.fieldNotBoolean n ∉ (testcasesPart doc).errs := by
  intro h
  unfold testcasesPart at h
  split at h
  · simp at h
  · rcases mem_tcLoop h with ⟨n2, h1⟩ | ⟨n2, h1⟩ | ⟨n2, h1⟩ | ⟨f, h1⟩ | ⟨k, h1⟩ | ⟨k, h1⟩ <;>
      simp at h1

/-- Unconditional unfolding of `validateTOML` on an existing file with a
successfully parsed document. -/
theorem validateTOML_ok (cfg : Config) (p : String) (doc : Struct) :
    validateTOML cfg p true (.ok doc) =
      match (releasesPart cfg doc).2 with
      | some e => (headerErrs doc ++ (releasesPart cfg doc).1, some e)
      | none =>
          match (testcasesPart doc).exn with
          | some e =>
              (headerErrs doc ++ (releasesPart cfg doc).1 ++ (testcasesPart doc).errs, some e)
          | none =>
              (headerErrs doc ++ (releasesPart cfg doc).1 ++ (testcasesPart doc).errs ++
                boolPart doc (testcasesPart doc).mmin, none) := by
  unfold validateTOML
  rw [if_neg (by decide)]

/-- When no exception escapes `validateTOML` on a parsed document, both
sections completed and the output is the in-order concatenation of the
four parts. -/
theorem validateTOML_ok_of_none {cfg : Config} {p : String} {doc : Struct}
    (h : (validateTOML cfg p true (.ok doc)).2 = none) :
    (releasesPart cfg doc).2 = none ∧ (testcasesPart doc).exn = none ∧
      validateTOML cfg p true (.ok doc) =
        (headerErrs doc ++ (releasesPart cfg doc).1 ++ (testcasesPart doc).errs ++
          boolPart doc (testcasesPart doc).mmin, none) := by
  rw [validateTOML_ok] at h
  rcases hr : (releasesPart cfg doc).2 with _ | e
  · rcases ht : (testcasesPart doc).exn with _ | e
    · exact ⟨rfl, rfl, by rw [validateTOML_ok, hr, ht]⟩
    · rw [hr, ht] at h
      simp at h
  · rw [hr] at h
    simp at h

/-- Unfolding of `validateTOML` when the releases section raised. -/
theorem validateTOML_ok_of_relExn {cfg : Config} {p : String} {doc : Struct} {e : JsError}
    (h : (releasesPart cfg doc).2 = some e) :
    validateTOML cfg p true (.ok doc) =
      (headerErrs doc ++ (releasesPart cfg doc).1, some e) := by
  rw [validateTOML_ok, h]

/-- Unfolding of `validateTOML` when the testcases section raised. -/
theorem validateTOML_ok_of_tcExn {cfg : Config} {p : String} {doc : Struct} {e : JsError}
    (h1 : (releasesPart cfg doc).2 = none) (h2 : (testcasesPart doc).exn = some e) :
    validateTOML cfg p true (.ok doc) =
      (headerErrs doc ++ (releasesPart cfg doc).1 ++ (testcasesPart doc).errs, some e) := by
  rw [validateTOML_ok, h1, h2]

/-- Unfolding of one testcase iteration when neither the date nor the
version check raised. -/
theorem tcLoop_cons_of_none {t : TomlValue} {rest : List TomlValue} {i : Nat} {m0 : Int}
    (hd : (validateIsDateRes t.asStruct "date").2 = none)
    (hv : (versionPart (i + 1) t.asStruct).2 = none) :
    tcLoop i m0 (t :: rest) =
      ⟨validateNotEmptyMsgs t.asStruct "compatibility" ++
          (validateIsDateRes t.asStruct "date").1 ++ (versionPart (i + 1) t.asStruct).1 ++
          validateNotEmptyMsgs t.asStruct "author" ++
          (tcLoop (i + 1) (compatFold m0 t.asStruct) rest).errs,
        (tcLoop (i + 1) (compatFold m0 t.asStruct) rest).mmin,
        (tcLoop (i + 1) (compatFold m0 t.asStruct) rest).exn⟩ := by
  conv_lhs =>
    unfold tcLoop
    dsimp only
  rw [hd, hv]

/-- Unfolding of one testcase iteration when the date check raised. -/
theorem tcLoop_cons_of_dateExn {t : TomlValue} {rest : List TomlValue} {i : Nat} {m0 : Int}
    {e : JsError} (hd : (validateIsDateRes t.asStruct "date").2 = some e) :
    tcLoop i m0 (t :: rest) =
      ⟨validateNotEmptyMsgs t.asStruct "compatibility" ++ (validateIsDateRes t.asStruct "date").1,
        compatFold m0 t.asStruct, some e⟩ := by
  conv_lhs =>
    unfold tcLoop
    dsimp only
  rw [hd]

/-- Unfolding of one testcase iteration when the version check raised. -/
theorem tcLoop_cons_of_versionExn {t : TomlValue} {rest : List TomlValue} {i : Nat} {m0 : Int}
    {e : JsError} (hd : (validateIsDateRes t.asStruct "date").2 = none)
    (hv : (versionPart (i + 1) t.asStruct).2 = some e) :
    tcLoop i m0 (t :: rest) =
      ⟨validateNotEmptyMsgs t.asStruct "compatibility" ++
          (validateIsDateRes t.asStruct "date").1 ++ (versionPart (i + 1) t.asStruct).1,
        compatFold m0 t.asStruct, some e⟩ := by
  conv_lhs =>
    unfold tcLoop
    dsimp only
  rw [hd, hv]

/-- `compatFold` in terms of the parsed value of the field. -/
theorem compatFold_eq (m0 : Int) (s : Struct) :
    compatFold m0 s =
      match (lookupField s "compatibility").bind jsParseInt with
      | none => m0
      | some n => jsMinFold m0 n := by
  unfold compatFold jsMinFold
  cases lookupField s "compatibility" with
  | none => rfl
  | some v => cases jsParseInt v <;> rfl

theorem jsMinFold_eq_min (m n : Int) : jsMinFold m n = min m n := by
  unfold jsMinFold
  rcases lt_or_ge n m with h | h
  · rw [if_pos h, min_eq_right h.le]
  · rw [if_neg (not_lt.2 h), min_eq_left h]

theorem foldl_jsMinFold_eq_min (l : List Int) : ∀ m : Int,
    l.foldl jsMinFold m = l.foldl min m := by
  induction l with
  | nil => intro m; rfl
  | cons x xs ih => intro m; simp only [List.foldl_cons, jsMinFold_eq_min, ih]

/-- The running minimum of the testcases loop, when it completes without
an exception, is the fold of `jsMinFold` over the parsed compatibility
values, starting from the given initial value. -/
theorem tcLoop_mmin_of_none : ∀ (l : List TomlValue) (i : Nat) (m0 : Int),
    (tcLoop i m0 l).exn = none →
      (tcLoop i m0 l).mmin = (parsedCompats l).foldl jsMinFold m0 := by
  intro l
  induction l with
  | nil => intro i m0 _; rfl
  | cons t rest ih =>
      intro i m0 h
      rcases hd : (validateIsDateRes t.asStruct "date").2 with _ | e
      · rcases hv : (versionPart (i + 1) t.asStruct).2 with _ | e
        · rw [tcLoop_cons_of_none hd hv] at h ⊢
          dsimp only at h ⊢
          rw [ih (i + 1) (compatFold m0 t.asStruct) h]
          unfold parsedCompats
          rw [List.filterMap_cons, compatFold_eq]
          cases (lookupField t.asStruct "compatibility").bind jsParseInt <;> rfl
        · rw [tcLoop_cons_of_versionExn hd hv] at h
          simp at h
      · rw [tcLoop_cons_of_dateExn hd] at h
        simp at h

theorem mem_vseq_left {a b : List VMsg × Option JsError} {m : VMsg} (h : m ∈ a.1) :
    m ∈ (vseq a b).1 := by
  unfold vseq
  rcases a with ⟨es, x⟩
  cases x with
  | none => simpa using Or.inl h
  | some e => exact h

theorem mem_vseq_right {a b : List VMsg × Option JsError} {m : VMsg} (ha : a.2 = none)
    (h : m ∈ b.1) : m ∈ (vseq a b).1 := by
  rw [vseq_of_none ha]
  simpa using Or.inr h

/-- The length error for release `k` is recorded exactly when the title
field is present with a JS `length` different from 16. -/
theorem releaseTitleLen_mem_releaseCheck {cfg : Config} {k : Nat} {r : TomlValue} :
    VMsg.releaseTitleLen k ∈ (releaseCheck cfg k r).1 ↔
      ∃ v, lookupField r.asStruct "title" = some v ∧ jsLength v ≠ some 16 := by
  constructor
  · intro h
    unfold releaseCheck at h
    rcases mem_vseq h with h1 | h1
    · unfold titlePart at h1
      split at h1
      · simp at h1
      · next v hv =>
          unfold releaseTitleField at h1
          split at h1
          · split at h1
            · split at h1 <;> simp at h1
            · simp at h1
          · next hlen => exact ⟨v, hv, hlen⟩
    · exfalso
      rcases mem_vseq h1 with h2 | h2
      · rcases mem_regionPart h2 with h3 | ⟨f, h3⟩ <;> simp at h3
      · rcases mem_validateIsDateRes h2 with h3 | ⟨f, h3⟩ <;> simp at h3
  · rintro ⟨v, hv, hlen⟩
    unfold releaseCheck
    apply mem_vseq_left
    unfold titlePart
    rw [hv]
    dsimp only
    unfold releaseTitleField
    rw [if_neg hlen]
    simp

/-- The pattern error for release `k` is recorded exactly when the title
field is present as a 16-character string with no run of 16 alphanumeric
characters. -/
theorem releaseTitlePat_mem_releaseCheck {cfg : Config} {k : Nat} {r : TomlValue} :
    VMsg.releaseTitlePat k ∈ (releaseCheck cfg k r).1 ↔
      ∃ f, lookupField r.asStruct "title" = some (.str f) ∧ f.length = 16 ∧
        matchAlnum16 f = false := by
  constructor
  · intro h
    unfold releaseCheck at h
    rcases mem_vseq h with h1 | h1
    · unfold titlePart at h1
      split at h1
      · simp at h1
      · next v hv =>
          unfold releaseTitleField at h1
          split at h1
          · next hlen =>
              split at h1
              · next f =>
                  split at h1
                  · simp at h1
                  · next hpat =>
                      refine ⟨f, hv, ?_, by simpa using hpat⟩
                      simpa [jsLength] using hlen
              · simp at h1
          · simp at h1
    · exfalso
      rcases mem_vseq h1 with h2 | h2
      · rcases mem_regionPart h2 with h3 | ⟨f, h3⟩ <;> simp at h3
      · rcases mem_validateIsDateRes h2 with h3 | ⟨f, h3⟩ <;> simp at h3
  · rintro ⟨f, hv, hlen, hpat⟩
    unfold releaseCheck
    apply mem_vseq_left
    unfold titlePart
    rw [hv]
    dsimp only
    unfold releaseTitleField
    rw [if_pos (by simp [jsLength, hlen])]
    simp [hpat]

/-- Inversion for `dateAt`: it succeeds exactly on lists starting with a
ten-character date block, whatever follows. -/
theorem dateAt_iff {t : List Char} :
    dateAt t = true ↔
      ∃ y1 y2 y3 y4 m1 m2 d1 d2 rest,
        t = y1 :: y2 :: y3 :: y4 :: '-' :: m1 :: m2 :: '-' :: d1 :: d2 :: rest ∧
          dateOk y1 y2 y3 y4 m1 m2 d1 d2 = true := by
  constructor
  · intro h
    rcases t with _ | ⟨y1, t⟩
    · exact Bool.noConfusion h
    rcases t with _ | ⟨y2, t⟩
    · exact Bool.noConfusion h
    rcases t with _ | ⟨y3, t⟩
    · exact Bool.noConfusion h
    rcases t with _ | ⟨y4, t⟩
    · exact Bool.noConfusion h
    rcases t with _ | ⟨c1, t⟩
    · exact Bool.noConfusion h
    rcases t with _ | ⟨m1, t⟩
    · exact Bool.noConfusion h
    rcases t with _ | ⟨m2, t⟩
    · exact Bool.noConfusion h
    rcases t with _ | ⟨c2, t⟩
    · exact Bool.noConfusion h
    rcases t with _ | ⟨d1, t⟩
    · exact Bool.noConfusion h
    rcases t with _ | ⟨d2, t⟩
    · exact Bool.noConfusion h
    have h2 : (c1 == '-' && (c2 == '-' && dateOk y1 y2 y3 y4 m1 m2 d1 d2)) = true := by
      rw [← Bool.and_assoc]
      exact h
    simp only [Bool.and_eq_true, beq_iff_eq] at h2
    obtain ⟨hc1, hc2, hok⟩ := h2
    subst hc1; subst hc2
    exact ⟨y1, y2, y3, y4, m1, m2, d1, d2, t, rfl, hok⟩
  · rintro ⟨y1, y2, y3, y4, m1, m2, d1, d2, rest, rfl, hok⟩
    show (('-' == '-') && ('-' == '-') && dateOk y1 y2 y3 y4 m1 m2 d1 d2) = true
    simp [hok]

/-- The unanchored date regex matches exactly when the string contains a
`YYYY-MM-DD` block as a substring. -/
theorem matchDate_iff {s : String} : matchDate s = true ↔ containsDate s := by
  unfold matchDate containsDate
  rw [List.any_eq_true]
  constructor
  · rintro ⟨t, ht, hd⟩
    rw [List.mem_tails] at ht
    rcases ht with ⟨pre, hpre⟩
    rcases dateAt_iff.1 hd with ⟨y1, y2, y3, y4, m1, m2, d1, d2, rest, rfl, hok⟩
    refine ⟨pre, [y1, y2, y3, y4, '-', m1, m2, '-', d1, d2], rest, ?_, ?_⟩
    · rw [← hpre]; simp
    · exact ⟨y1, y2, y3, y4, m1, m2, d1, d2, rfl, hok⟩
  · rintro ⟨pre, mid, post, hs, y1, y2, y3, y4, m1, m2, d1, d2, rfl, hok⟩
    refine ⟨[y1, y2, y3, y4, '-', m1, m2, '-', d1, d2] ++ post, ?_, ?_⟩
    · rw [List.mem_tails]
      exact ⟨pre, by rw [hs]; simp⟩
    · rw [dateAt_iff]
      exact ⟨y1, y2, y3, y4, m1, m2, d1, d2, post, by simp, hok⟩

/-- On a 16-character string the unanchored 16-alphanumeric regex is
equivalent to the whole string being alphanumeric. -/
theorem matchAlnum16_iff_of_len {s : String} (h : s.data.length = 16) :
    matchAlnum16 s = true ↔ s.data.all Char.isAlphanum = true := by
  unfold matchAlnum16
  rw [List.any_eq_true]
  constructor
  · rintro ⟨t, ht, hcond⟩
    rw [List.mem_tails] at ht
    simp only [Bool.and_eq_true, decide_eq_true_eq] at hcond
    obtain ⟨hlen, hall⟩ := hcond
    have hle : t.length ≤ 16 := h ▸ ht.length_le
    have hteq : t = s.data := ht.eq_of_length (by rw [le_antisymm hle hlen, h])
    subst hteq
    have htake : s.data.take 16 = s.data := by
      rw [← h]
      exact List.take_length _
    rw [← htake]
    exact hall
  · intro hall
    refine ⟨s.data, (List.mem_tails _ _).2 (List.suffix_refl _), ?_⟩
    have htake : s.data.take 16 = s.data := by
      rw [← h]
      exact List.take_length _
    simp [h, htake, hall]

theorem keysInOrder_cons (x : String) (xs : List String) :
    keysInOrder (x :: xs) = x :: (keysInOrder xs).filter (fun y => y ≠ x) := rfl

theorem mem_keysInOrder {x : String} : ∀ {l : List String}, x ∈ keysInOrder l ↔ x ∈ l := by
  intro l
  induction l with
  | nil => simp [keysInOrder]
  | cons y ys ih =>
      rw [keysInOrder_cons]
      by_cases hxy : x = y
      · subst hxy; simp
      · simp [hxy, List.mem_filter, ih]

theorem keysInOrder_nodup : ∀ l : List String, (keysInOrder l).Nodup := by
  intro l
  induction l with
  | nil => simp [keysInOrder]
  | cons y ys ih =>
      rw [keysInOrder_cons]
      refine List.Nodup.cons ?_ (ih.filter _)
      intro hmem
      rcases List.mem_filter.1 hmem with ⟨-, hne⟩
      simp at hne

/-- The JS first-occurrence filter, traced with an accumulated prefix:
on the suffix `xs` of `l` starting at index `(length pre)`, it keeps
the first occurrences among `xs` of the values not already seen. -/
theorem jsFilterIdx_keysInOrder (l : List String) :
    ∀ (xs pre : List String), l = pre ++ xs →
      jsFilterIdx (fun e i => l.indexOf e = i) xs pre.length =
        (keysInOrder xs).filter (fun e => e ∉ pre) := by
  intro xs
  induction xs with
  | nil => intro pre hl; rfl
  | cons x rest ih =>
      intro pre hl
      have hpre2 : l = (pre ++ [x]) ++ rest := by rw [hl]; simp
      have ih2 := ih (pre ++ [x]) hpre2
      rw [List.length_append, List.length_singleton] at ih2
      have hfilter :
          (keysInOrder rest).filter (fun e => e ∉ pre ++ [x]) =
            ((keysInOrder rest).filter (fun y => y ≠ x)).filter (fun e => e ∉ pre) := by
        rw [List.filter_filter]
        apply List.filter_congr
        intro a _
        by_cases hax : a = x
        · simp [hax]
        · by_cases hap : a ∈ pre <;> simp [hax, hap]
      unfold jsFilterIdx
      rw [keysInOrder_cons]
      by_cases hx : x ∈ pre
      · have hlt : l.indexOf x < pre.length := by
          rw [hl, List.indexOf_append_of_mem hx]
          exact List.indexOf_lt_length.2 hx
        rw [if_neg (by simp only [decide_eq_true_eq]; omega)]
        rw [ih2, hfilter]
        rw [List.filter_cons_of_neg (by simp [hx])]
      · have heq : l.indexOf x = pre.length := by
          rw [hl, List.indexOf_append_of_not_mem hx, List.indexOf_cons_self, Nat.add_zero]
        rw [if_pos (by simp [heq])]
        rw [ih2, hfilter]
        rw [List.filter_cons_of_pos (by simp [hx])]

/-- The code's first-occurrence deduplication (`indexOf === i` filter)
computes exactly the distinct values in first-occurrence order. -/
theorem dedupFirst_eq_keysInOrder (l : List String) : dedupFirst l = keysInOrder l := by
  have h := jsFilterIdx_keysInOrder l l [] rfl
  simp only [List.length_nil] at h
  unfold dedupFirst
  rw [h]
  apply List.filter_eq_self.2
  intro a _
  simp

theorem keysInOrder_append_singleton (xs : List String) (x : String) :
    keysInOrder (xs ++ [x]) =
      if x ∈ xs then keysInOrder xs else keysInOrder xs ++ [x] := by
  induction xs with
  | nil => simp [keysInOrder]
  | cons y ys ih =>
      rw [List.cons_append, keysInOrder_cons, keysInOrder_cons, ih]
      by_cases hxy : x = y
      · subst hxy
        by_cases hxs : x ∈ ys <;> simp [hxs, List.filter_append]
      · by_cases hxs : x ∈ ys
        · simp [hxs, hxy]
        · simp [hxs, hxy, List.filter_append, Ne.symm hxy]

/-- One `group-by` insertion step, on the canonical form of the
accumulator: it extends the matching group or appends a fresh one. -/
theorem gbInsert_canonical (p : List VRecord) (r : VRecord) :
    gbInsert
        ((keysInOrder (p.map (fun t => t.game))).map
          (fun k => (k, p.filter (fun t => t.game == k)))) r =
      (keysInOrder ((p ++ [r]).map (fun t => t.game))).map
        (fun k => (k, (p ++ [r]).filter (fun t => t.game == k))) := by
  unfold gbInsert
  have hkeys :
      ((keysInOrder (p.map (fun t => t.game))).map
          (fun k => (k, p.filter (fun t => t.game == k)))).map Prod.fst =
        keysInOrder (p.map (fun t => t.game)) := by
    rw [List.map_map]
    have hcomp : (Prod.fst ∘ fun k => (k, p.filter (fun t => t.game == k))) = id := rfl
    rw [hcomp, List.map_id]
  rw [hkeys]
  have hmapapp : (p ++ [r]).map (fun t => t.game) = p.map (fun t => t.game) ++ [r.game] := by
    simp
  by_cases hmem : r.game ∈ p.map (fun t => t.game)
  · rw [if_pos (by rw [List.elem_iff, mem_keysInOrder]; exact hmem)]
    rw [hmapapp, keysInOrder_append_singleton, if_pos hmem]
    rw [List.map_map]
    apply List.map_congr_left
    intro k hk
    by_cases hkr : k = r.game
    · subst hkr
      simp [List.filter_append]
    · have : (r.game == k) = false := by simp [Ne.symm hkr]
      simp [hkr, List.filter_append, this]
  · rw [if_neg (by rw [List.elem_iff, mem_keysInOrder]; exact hmem)]
    rw [hmapapp, keysInOrder_append_singleton, if_neg hmem, List.map_append]
    congr 1
    · apply List.map_congr_left
      intro k hk
      have hk2 : k ∈ p.map (fun t => t.game) := mem_keysInOrder.1 hk
      have hkr : (r.game == k) = false := by
        simp only [beq_eq_false_iff_ne, ne_eq]
        intro he
        exact hmem (he ▸ hk2)
      simp [List.filter_append, hkr]
    · have hnil : p.filter (fun t => t.game == r.game) = [] := by
        rw [List.filter_eq_nil_iff]
        intro t ht
        simp only [beq_iff_eq]
        intro he
        exact hmem (he ▸ List.mem_map_of_mem (fun t => t.game) ht)
      simp [List.filter_append, hnil]

theorem foldl_gbInsert_canonical (l : List VRecord) : ∀ p : List VRecord,
    List.foldl gbInsert
        ((keysInOrder (p.map (fun t => t.game))).map
          (fun k => (k, p.filter (fun t => t.game == k)))) l =
      (keysInOrder ((p ++ l).map (fun t => t.game))).map
        (fun k => (k, (p ++ l).filter (fun t => t.game == k))) := by
  induction l with
  | nil => intro p; simp
  | cons r rest ih =>
      intro p
      rw [List.foldl_cons, gbInsert_canonical]
      have h2 := ih (p ++ [r])
      simpa [List.append_assoc] using h2

/-- `groupBy(errors, "game")` groups the records under their game names,
keys in first-occurrence order, each group in record order. -/
theorem groupByGame_eq (l : List VRecord) :
    groupByGame l =
      (keysInOrder (l.map (fun t => t.game))).map
        (fun k => (k, l.filter (fun t => t.game == k))) := by
  have h := foldl_gbInsert_canonical l []
  simpa [groupByGame] using h

/-- The game loop processes a concatenation of folder lists as the
concatenation of the results: no game can abort the rest of the run. -/
theorem runAll_append (cfg : Config) : ∀ l1 l2 : List GameFS,
    runAll cfg (l1 ++ l2) =
      ((runAll cfg l1).1 ++ (runAll cfg l2).1, (runAll cfg l1).2 ++ (runAll cfg l2).2) := by
  intro l1
  induction l1 with
  | nil => intro l2; simp [runAll]
  | cons g rest ih =>
      intro l2
      have hstep : ∀ gs : List GameFS, runAll cfg (g :: gs) =
          ((runGame cfg g).1 ++ (runAll cfg gs).1, (runGame cfg g).2 ++ (runAll cfg gs).2) := by
        intro gs
        rfl
      rw [List.cons_append, hstep, hstep, ih l2]
      simp [List.append_assoc]

/-- When the per-game body raises, the loop iteration keeps the records
pushed so far (tagged with the game) and logs the warning lines. -/
theorem runGame_of_exn {cfg : Config} {g : GameFS} {es : List VMsg} {e : JsError}
    (h1 : g.name ≠ ".git") (h2 : g.name ≠ "_validation")
    (hb : validateGameBody cfg g = (es, some e)) :
    runGame cfg g =
      (es.map (fun m => ⟨g.name, m⟩),
        [g.name ++ " has encountered an unexpected error.", renderExn e]) := by
  unfold runGame
  rw [if_neg (by simp [h1, h2]), hb]

/-- When the per-game body completes, its messages become the game's
records and nothing is logged. -/
theorem runGame_of_none {cfg : Config} {g : GameFS} {es : List VMsg}
    (h1 : g.name ≠ ".git") (h2 : g.name ≠ "_validation")
    (hb : validateGameBody cfg g = (es, none)) :
    runGame cfg g = (es.map (fun m => ⟨g.name, m⟩), []) := by
  unfold runGame
  rw [if_neg (by simp [h1, h2]), hb]

/-- The saves group loop concatenates the per-group messages as long as
no group raises. -/
theorem savesLoop_of_no_exn {dirPath : String} {d : SavesData} :
    ∀ gs : List String, (∀ g ∈ gs, (saveGroupCheck dirPath d g).2 = none) →
      savesLoop dirPath d gs =
        (gs.flatMap (fun g => (saveGroupCheck dirPath d g).1), none) := by
  intro gs
  induction gs with
  | nil => intro _; rfl
  | cons g rest ih =>
      intro h
      show vseq (saveGroupCheck dirPath d g) (savesLoop dirPath d rest) = _
      rw [vseq_of_none (h g (List.mem_cons_self g rest)), ih (fun x hx => h x (List.mem_cons_of_mem g hx))]
      simp

/-- A missing `.dat` file for a group records exactly the missing-file
error and raises nothing. -/
theorem datPart_of_missing {dirPath : String} {d : SavesData} {g : String}
    (h : (g ++ ".dat") ∉ d.files) :
    datPart dirPath d g = ([.fileNotExist (dirPath ++ "/" ++ g ++ ".dat")], none) := by
  unfold datPart
  rw [if_neg (by rw [List.elem_iff]; exact h)]

/-- A missing `.zip` file for a group records exactly the missing-file
error and raises nothing. -/
theorem zipPart_of_missing {dirPath : String} {d : SavesData} {g : String}
    (h : (g ++ ".zip") ∉ d.files) :
    zipPart dirPath d g = ([.fileNotExist (dirPath ++ "/" ++ g ++ ".zip")], none) := by
  unfold zipPart
  rw [if_neg (by rw [List.elem_iff]; exact h)]

/-- A present `.zip` file is checked byte-for-byte against the
signature; this never raises. -/
theorem zipPart_of_present {dirPath : String} {d : SavesData} {g : String}
    (h : (g ++ ".zip") ∈ d.files) :
    zipPart dirPath d g =
      (if (d.zipBytes (g ++ ".zip")).take 4 = zipHeader then []
        else [.notZip (dirPath ++ "/" ++ g ++ ".zip")], none) := by
  unfold zipPart
  rw [if_pos (by rw [List.elem_iff]; exact h)]
  unfold validateSaveZip
  split <;> simp_all

/-- The `compatibility` presence check passes on a non-empty string. -/
theorem validateNotEmptyMsgs_of_str {s : Struct} {n : String} {c : String}
    (hl : lookupField s n = some (.str c)) (hc : c ≠ "") :
    validateNotEmptyMsgs s n = [] := by
  unfold validateNotEmptyMsgs
  rw [hl]
  simp [hc]

/-- An unparseable present `compatibility` value leaves the running
minimum unchanged (`NaN < m` is false). -/
theorem compatFold_of_nan {m0 : Int} {s : Struct} {v : TomlValue}
    (hl : lookupField s "compatibility" = some v) (hp : jsParseInt v = none) :
    compatFold m0 s = m0 := by
  unfold compatFold
  rw [hl]
  dsimp only
  rw [hp]

/-- A missing `compatibility` field leaves the running minimum
unchanged. -/
theorem compatFold_of_missing {m0 : Int} {s : Struct}
    (hl : lookupField s "compatibility" = none) : compatFold m0 s = m0 := by
  unfold compatFold
  rw [hl]

/-- If every testcase's compatibility value fails to parse, the running
minimum never changes, whether or not the loop completes. -/
theorem tcLoop_mmin_of_all_nan :
    ∀ (l : List TomlValue) (i : Nat) (m0 : Int),
      (∀ t ∈ l, ∃ v, lookupField t.asStruct "compatibility" = some v ∧ jsParseInt v = none) →
      (tcLoop i m0 l).mmin = m0 := by
  intro l
  induction l with
  | nil => intro i m0 _; rfl
  | cons t rest ih =>
      intro i m0 h
      obtain ⟨v, hv, hp⟩ := h t (List.mem_cons_self t rest)
      have hm2 : compatFold m0 t.asStruct = m0 := compatFold_of_nan hv hp
      rcases hd : (validateIsDateRes t.asStruct "date").2 with _ | e
      · rcases hvx : (versionPart (i + 1) t.asStruct).2 with _ | e
        · rw [tcLoop_cons_of_none hd hvx]
          dsimp only
          rw [hm2, ih (i + 1) m0 (fun x hx => h x (List.mem_cons_of_mem t hx))]
        · rw [tcLoop_cons_of_versionExn hd hvx]
          exact hm2
      · rw [tcLoop_cons_of_dateExn hd]
        exact hm2

/-- `validateIsBoolean` records an error exactly when the field is
absent or not a literal boolean. -/
theorem validateIsBooleanMsgs_eq (s : Struct) (n : String) :
    validateIsBooleanMsgs s n =
      if isBooleanOpt (lookupField s n) = true then [] else [.fieldNotBoolean n] := by
  unfold validateIsBooleanMsgs isBooleanOpt
  rcases lookupField s n with _ | v
  · rfl
  · cases v <;> rfl

theorem boolPart_of_ge {doc : Struct} {m : Int} (h : 5 ≤ m) : boolPart doc m = [] := by
  unfold boolPart
  rw [if_neg (not_lt.2 h)]

theorem boolPart_of_lt {doc : Struct} {m : Int} (h : m < 5) :
    boolPart doc m =
      validateIsBooleanMsgs doc "needs_system_files" ++
        validateIsBooleanMsgs doc "needs_shared_font" := by
  unfold boolPart
  rw [if_pos h]

/-- A boolean-check error can only come from the conditional
resource-requirement block. -/
theorem fieldNotBoolean_notMem_validateTOML {cfg : Config} {p : String} {doc : Struct}
    {n : String} (hb : VMsg.fieldNotBoolean n ∉ boolPart doc (testcasesPart doc).mmin) :
    VMsg.fieldNotBoolean n ∉ (validateTOML cfg p true (.ok doc)).1 := by
  intro hmem
  rw [validateTOML_ok] at hmem
  rcases hrx : (releasesPart cfg doc).2 with _ | e <;> rw [hrx] at hmem
  · rcases htx : (testcasesPart doc).exn with _ | e <;> rw [htx] at hmem
    · dsimp only at hmem
      rcases List.mem_append.1 hmem with h1 | h1
      · rcases List.mem_append.1 h1 with h2 | h2
        · rcases List.mem_append.1 h2 with h3 | h3
          · exact fieldNotBoolean_notMem_headerErrs h3
          · exact fieldNotBoolean_notMem_releasesPart h3
        · exact fieldNotBoolean_notMem_tcErrs h2
      · exact hb h1
    · dsimp only at hmem
      rcases List.mem_append.1 hmem with h1 | h1
      · rcases List.mem_append.1 h1 with h2 | h2
        · exact fieldNotBoolean_notMem_headerErrs h2
        · exact fieldNotBoolean_notMem_releasesPart h2
      · exact fieldNotBoolean_notMem_tcErrs h1
  · dsimp only at hmem
    rcases List.mem_append.1 hmem with h1 | h1
    · exact fieldNotBoolean_notMem_headerErrs h1
    · exact fieldNotBoolean_notMem_releasesPart h1

/-- Counting occurrences of a message in the whole document validation:
everything outside the `github_issues` check contributes zero when the
message cannot occur there. -/
theorem count_validateTOML_eq_githubCheck {cfg : Config} {p : String} {doc : Struct}
    {m : VMsg} (hm : ∀ (s : Struct) (n : String), m ∉ validateNotEmptyMsgs s n)
    (hr : m ∉ (releasesPart cfg doc).1) (ht : m ∉ (testcasesPart doc).errs)
    (hb : ∀ mm : Int, m ∉ boolPart doc mm) :
    ((validateTOML cfg p true (.ok doc)).1).count m = (githubCheck doc).count m := by
  have hheader : (headerErrs doc).count m = (githubCheck doc).count m := by
    unfold headerErrs
    rw [List.count_append, List.count_append, List.count_eq_zero.2 (hm doc "title"),
      List.count_eq_zero.2 (hm doc "description")]
    omega
  rw [validateTOML_ok]
  rcases hrx : (releasesPart cfg doc).2 with _ | e
  · rcases htx : (testcasesPart doc).exn with _ | e
    · dsimp only
      rw [List.count_append, List.count_append, List.count_append,
        List.count_eq_zero.2 hr, List.count_eq_zero.2 ht, List.count_eq_zero.2 (hb _),
        hheader]
      omega
    · dsimp only
      rw [List.count_append, List.count_append, List.count_eq_zero.2 hr,
        List.count_eq_zero.2 ht, hheader]
      omega
  · dsimp only
    rw [List.count_append, List.count_eq_zero.2 hr, hheader]
    omega

theorem githubEntry_count_filterMap (l : List TomlValue) :
    (l.filterMap
        (fun x => if isNumberValue x then none else some VMsg.githubEntryNotNumber)).count
        .githubEntryNotNumber =
      l.countP (fun x => !(isNumberValue x)) := by
  induction l with
  | nil => rfl
  | cons x rest ih =>
      rw [List.filterMap_cons, List.countP_cons]
      by_cases hx : isNumberValue x = true
      · simp [hx, ih]
      · rw [if_neg hx, List.count_cons]
        simp only [Bool.not_eq_true] at hx
        simp [hx, ih]

theorem githubNotArray_notMem_filterMap (l : List TomlValue) :
    VMsg.githubNotArray ∉
      l.filterMap (fun x => if isNumberValue x then none else some VMsg.githubEntryNotNumber) := by
  intro h
  rcases List.mem_filterMap.1 h with ⟨x, -, hx⟩
  split at hx <;> simp at hx

theorem githubCheck_of_arr {doc : Struct} {l : List TomlValue}
    (h : lookupField doc "github_issues" = some (.arr l)) :
    githubCheck doc =
      l.filterMap (fun x => if isNumberValue x then none else some VMsg.githubEntryNotNumber) := by
  unfold githubCheck
  rw [h]

theorem githubCheck_of_not_arr {doc : Struct} {v : TomlValue}
    (h : lookupField doc "github_issues" = some v) (hv : ∀ l, v ≠ .arr l) :
    githubCheck doc = [.githubNotArray] := by
  unfold githubCheck
  rw [h]
  cases v with
  | arr l => exact absurd rfl (hv l)
  | str s => rfl
  | int n => rfl
  | float r => rfl
  | bool b => rfl
  | table t => rfl

/-! ## Claim theorems -/

/-- C1 (counterexample): the claim fails on the code in two ways.
First, with a single testcase `compatibility = "1000"` the loop
completes, the parsed values are exactly `[1000]`, yet the running
minimum stays at the 999 sentinel (`1000 < 999` is false), so it is not
the minimum of the parsed values.  Second, with minimum compatibility 0
and a non-string `date` field, the testcase loop raises before the
conditional block, so although the running minimum is 0 (< 5) and
`needs_system_files` is absent, no boolean-check error is recorded. -/
theorem c1_counterexample :
    ((testcasesPart docMin1000).exn = none ∧
      parsedCompats (TomlValue.arr [.table [("compatibility", .str "1000")]]).elems =
        [1000] ∧
      (testcasesPart docMin1000).mmin = 999) ∧
    ((testcasesPart docCrash).mmin = 0 ∧ (testcasesPart docCrash).mmin < 5 ∧
      lookupField docCrash "needs_system_files" = none ∧
      VMsg.fieldNotBoolean "needs_system_files" ∉
        (validateTOML cfgW "games/g/game.dat" true (.ok docCrash)).1 ∧
      VMsg.fieldNotBoolean "needs_shared_font" ∉
        (validateTOML cfgW "games/g/game.dat" true (.ok docCrash)).1) := by
  refine ⟨⟨rfl, rfl, by decide⟩, by decide, by decide, rfl, ?_, ?_⟩ <;>
    · have h : (validateTOML cfgW "games/g/game.dat" true (.ok docCrash)).1 = [] := by decide
      rw [h]
      simp

/-- C1 (amended): provided validating the document raises no JS
exception — if any testcase raises, the conditional block is skipped —
the running minimum is the fold of `min` over the parsed compatibility
values starting from the 999 sentinel (hence equal to their minimum
whenever some parsed value is at most 999), independent of entry order;
if it is strictly below 5, an absent or non-literal-boolean
`needs_system_files` or `needs_shared_font` is recorded as an error, and
if it is 5 or greater, or there are no test cases, no boolean-check
error is recorded. -/
theorem c1_running_min_conditional (cfg : Config) (p : String) (doc : Struct)
    (hex : (validateTOML cfg p true (.ok doc)).2 = none) :
    (lookupField doc "testcases" = none →
      ∀ n, VMsg.fieldNotBoolean n ∉ (validateTOML cfg p true (.ok doc)).1) ∧
    ∀ v, lookupField doc "testcases" = some v →
      (testcasesPart doc).mmin = (parsedCompats v.elems).foldl min 999 ∧
      (∀ l2, v.elems.Perm l2 → (tcLoop 0 999 l2).exn = none →
        (tcLoop 0 999 l2).mmin = (testcasesPart doc).mmin) ∧
      ((testcasesPart doc).mmin < 5 →
        (isBooleanOpt (lookupField doc "needs_system_files") = false →
          VMsg.fieldNotBoolean "needs_system_files" ∈ (validateTOML cfg p true (.ok doc)).1) ∧
        (isBooleanOpt (lookupField doc "needs_shared_font") = false →
          VMsg.fieldNotBoolean "needs_shared_font" ∈ (validateTOML cfg p true (.ok doc)).1)) ∧
      (5 ≤ (testcasesPart doc).mmin →
        ∀ n, VMsg.fieldNotBoolean n ∉ (validateTOML cfg p true (.ok doc)).1) := by
  obtain ⟨hrel, htc, heq⟩ := validateTOML_ok_of_none hex
  constructor
  · intro hnone n
    apply fieldNotBoolean_notMem_validateTOML
    have h999 : (testcasesPart doc).mmin = 999 := by
      unfold testcasesPart
      rw [hnone]
    rw [h999, boolPart_of_ge (by decide)]
    simp
  · intro v hv
    have htp : testcasesPart doc = tcLoop 0 999 v.elems := by
      unfold testcasesPart
      rw [hv]
    have hexn : (tcLoop 0 999 v.elems).exn = none := by rw [← htp]; exact htc
    have hmin : (testcasesPart doc).mmin = (parsedCompats v.elems).foldl min 999 := by
      rw [htp, tcLoop_mmin_of_none _ _ _ hexn, foldl_jsMinFold_eq_min]
    refine ⟨hmin, ?_, ?_, ?_⟩
    · intro l2 hperm hexn2
      rw [tcLoop_mmin_of_none _ _ _ hexn2, foldl_jsMinFold_eq_min, hmin]
      exact ((hperm.filterMap _).foldl_eq' (fun x _ y _ z => min_right_comm z x y) 999).symm
    · intro hlt
      constructor
      · intro hbo
        rw [heq]
        apply List.mem_append.2
        right
        rw [boolPart_of_lt hlt]
        apply List.mem_append.2
        left
        rw [validateIsBooleanMsgs_eq, hbo]
        simp
      · intro hbo
        rw [heq]
        apply List.mem_append.2
        right
        rw [boolPart_of_lt hlt]
        apply List.mem_append.2
        right
        rw [validateIsBooleanMsgs_eq, hbo]
        simp
    · intro hge n
      apply fieldNotBoolean_notMem_validateTOML
      rw [boolPart_of_ge hge]
      simp

/-- C1 (witness): on a document whose only testcase parses to
compatibility 3 and which declares neither resource-requirement boolean,
validation completes without exception, the running minimum is 3, and
both boolean-check errors are recorded. -/
theorem c1_witness :
    (validateTOML cfgW "games/g/game.dat" true (.ok docCompat3)).2 = none ∧
    (testcasesPart docCompat3).mmin = 3 ∧
    VMsg.fieldNotBoolean "needs_system_files" ∈
      (validateTOML cfgW "games/g/game.dat" true (.ok docCompat3)).1 ∧
    VMsg.fieldNotBoolean "needs_shared_font" ∈
      (validateTOML cfgW "games/g/game.dat" true (.ok docCompat3)).1 := by
  have h := c1_running_min_conditional cfgW "games/g/game.dat" docCompat3 rfl
  have h2 := h.2
    (.arr [.table [("compatibility", .str "3"), ("date", .str "2020-01-02"),
      ("version", .str "HEAD-abcdefg"), ("author", .str "me")]]) rfl
  exact ⟨rfl, by decide, (h2.2.2.1 (by decide)).1 (by decide),
    (h2.2.2.1 (by decide)).2 (by decide)⟩

/-- C2 (counterexample): no title value can make both the length error
and the pattern error fire on the same release entry — the pattern check
is in the `else` branch of the length check. -/
theorem c2_counterexample :
    ¬ ∃ (cfg : Config) (k : Nat) (r : TomlValue),
      VMsg.releaseTitleLen k ∈ (releaseCheck cfg k r).1 ∧
      VMsg.releaseTitlePat k ∈ (releaseCheck cfg k r).1 := by
  rintro ⟨cfg, k, r, h1, h2⟩
  rcases releaseTitleLen_mem_releaseCheck.1 h1 with ⟨v, hv, hlen⟩
  rcases releaseTitlePat_mem_releaseCheck.1 h2 with ⟨f, hf, hflen, -⟩
  rw [hv] at hf
  injection hf with hf2
  subst hf2
  exact hlen (by simp [jsLength, hflen])

/-- C2 (amended): for a release entry whose title field exists, the
length check always runs — the length error is recorded exactly when the
JS `length` of the value differs from 16 — while the pattern check runs
only in its `else` branch: the pattern error is recorded exactly when
the value is a 16-character string that is not fully alphanumeric.
At most one of the two errors is recorded per entry: they can never both
fire. -/
theorem c2_title_checks (cfg : Config) (k : Nat) (r : TomlValue) (v : TomlValue)
    (hv : lookupField r.asStruct "title" = some v) :
    (VMsg.releaseTitleLen k ∈ (releaseCheck cfg k r).1 ↔ jsLength v ≠ some 16) ∧
    (VMsg.releaseTitlePat k ∈ (releaseCheck cfg k r).1 ↔
      ∃ f, v = .str f ∧ f.length = 16 ∧ f.data.all Char.isAlphanum = false) ∧
    ¬(VMsg.releaseTitleLen k ∈ (releaseCheck cfg k r).1 ∧
      VMsg.releaseTitlePat k ∈ (releaseCheck cfg k r).1) := by
  have hlen16 : ∀ f : String, f.length = 16 → f.data.length = 16 := fun f hf => hf
  refine ⟨?_, ?_, ?_⟩
  · constructor
    · intro h
      rcases releaseTitleLen_mem_releaseCheck.1 h with ⟨v2, hv2, hl⟩
      rw [hv] at hv2
      injection hv2 with hv3
      subst hv3
      exact hl
    · intro h
      exact releaseTitleLen_mem_releaseCheck.2 ⟨v, hv, h⟩
  · constructor
    · intro h
      rcases releaseTitlePat_mem_releaseCheck.1 h with ⟨f, hf, hfl, hpat⟩
      rw [hv] at hf
      injection hf with hf2
      refine ⟨f, hf2, hfl, ?_⟩
      have := (matchAlnum16_iff_of_len (hlen16 f hfl)).not
      rw [Bool.not_eq_true, Bool.not_eq_true] at this
      exact this.1 hpat
    · rintro ⟨f, rfl, hfl, hall⟩
      apply releaseTitlePat_mem_releaseCheck.2
      refine ⟨f, hv, hfl, ?_⟩
      have := (matchAlnum16_iff_of_len (hlen16 f hfl)).not
      rw [Bool.not_eq_true, Bool.not_eq_true] at this
      exact this.2 hall
  · rintro ⟨h1, h2⟩
    rcases releaseTitleLen_mem_releaseCheck.1 h1 with ⟨v2, hv2, hl⟩
    rcases releaseTitlePat_mem_releaseCheck.1 h2 with ⟨f, hf, hfl, -⟩
    rw [hv2] at hf
    injection hf with hf2
    subst hf2
    exact hl (by simp [jsLength, hfl])

/-- C2 (witness): on a release whose title is the 5-character string
`"short"`, the length error is recorded and the pattern error is not. -/
theorem c2_witness :
    lookupField (TomlValue.table relShort).asStruct "title" = some (.str "short") ∧
    VMsg.releaseTitleLen 1 ∈ (releaseCheck cfgW 1 (.table relShort)).1 ∧
    VMsg.releaseTitlePat 1 ∉ (releaseCheck cfgW 1 (.table relShort)).1 := by
  have h := c2_title_checks cfgW 1 (.table relShort) (.str "short") rfl
  have hlen : VMsg.releaseTitleLen 1 ∈ (releaseCheck cfgW 1 (.table relShort)).1 :=
    h.1.2 (by decide)
  exact ⟨rfl, hlen, fun hp => h.2.2 ⟨hlen, hp⟩⟩

/-- C3: the code, not the claim, is wrong here — on an existing image
file whose leading chunk cannot be classified, `imageType` returns
`null`, reading `.mime` raises a `TypeError`, no format-mismatch error
is recorded, and the dimension check never runs. -/
theorem c3_unclassified_image_raises :
    validateImage "games/g/boxart.png" true ⟨none, 328, 300⟩ cfgW.boxart =
      ([], some (.typeError "Cannot read property mime of null")) := rfl

/-- C4: a parse failure records exactly one error carrying the parser's
line and message and nothing else for that document (no field checks run
and no exception escapes); and the game loop distributes over list
concatenation, so other games' validation is unaffected. -/
theorem c4_parse_failure_isolated :
    (∀ (cfg : Config) (p : String) (e : PErr),
      validateTOML cfg p true (.error e) = ([.tomlParseError e.line e.message], none) ∧
      render (.tomlParseError e.line e.message) =
        "TOML parse error (" ++ toString e.line ++ "): " ++ e.message) ∧
    ∀ (cfg : Config) (l1 l2 : List GameFS),
      (runAll cfg (l1 ++ l2)).1 = (runAll cfg l1).1 ++ (runAll cfg l2).1 := by
  constructor
  · intro cfg p e
    constructor
    · unfold validateTOML
      rw [if_neg (by decide)]
    · rfl
  · intro cfg l1 l2
    rw [runAll_append]

/-- C5: the process exits 0 exactly when the error list is empty and 1
exactly when it is not; on success exactly the one confirmation line is
printed; on failure the summary line is followed, for each offending
game in first-occurrence order, by its name line and its error messages
in the order they were recorded. -/
theorem c5_reporter_exit (errs : List VRecord) :
    ((report errs).2 = 0 ↔ errs = []) ∧
    ((report errs).2 = 1 ↔ errs ≠ []) ∧
    (errs = [] → (report errs).1 = ["Validation completed without errors."]) ∧
    (errs ≠ [] → (report errs).1 =
      "Validation completed with errors." ::
        (keysInOrder (errs.map (fun t => t.game))).flatMap
          (fun k => ("  " ++ k ++ ":") ::
            (errs.filter (fun t => t.game == k)).map (fun t => "   - " ++ render t.error))) := by
  by_cases h : errs = []
  · subst h
    refine ⟨by simp [report], by simp [report], fun _ => by simp [report],
      fun hne => absurd rfl hne⟩
  · have hlen : 0 < errs.length := List.length_pos.2 h
    refine ⟨?_, ?_, fun he => absurd he h, fun _ => ?_⟩
    · unfold report
      rw [if_pos hlen]
      simp [h]
    · unfold report
      rw [if_pos hlen]
      simp [h]
    · unfold report
      rw [if_pos hlen]
      dsimp only
      rw [groupByGame_eq, List.flatMap_map]

/-- C5 (witness): three records over two games: exit code 1, summary
line, then group `g1` with its two messages in recorded order, then
group `g2`. -/
theorem c5_witness :
    (report errsW).2 = 1 ∧
    (report errsW).1 =
      ["Validation completed with errors.", "  g1:", "   - No releases.",
        "   - Github issues field is not an array!", "  g2:", "   - No testcases."] ∧
    (report []).2 = 0 ∧
    (report []).1 = ["Validation completed without errors."] := by
  have h := c5_reporter_exit errsW
  have h0 := c5_reporter_exit []
  refine ⟨h.2.1.2 (by decide), ?_, h0.1.2 rfl, h0.2.2.1 rfl⟩
  rw [h.2.2.2 (by decide)]
  decide

/-- C6 (counterexample): the float `1.5` is not an integer, yet as a
`github_issues` element it records no error — the code checks
`typeof !== "number"`, and a float is a number. -/
theorem c6_counterexample :
    isIntegerValue (.float "1.5") = false ∧
    lookupField docGithubFloat "github_issues" = some (.arr [.float "1.5"]) ∧
    ((validateTOML cfgW "games/g/game.dat" true (.ok docGithubFloat)).1).count
        .githubEntryNotNumber = 0 ∧
    ((validateTOML cfgW "games/g/game.dat" true (.ok docGithubFloat)).1).count
        .githubNotArray = 0 := by
  refine ⟨rfl, rfl, ?_, ?_⟩ <;> decide

/-- C6 (amended): when `github_issues` is present and not an array,
exactly one not-an-array error is recorded; when it is an array, the
check is not short-circuited: the number of element errors equals the
number of elements whose JS type is not `"number"` (integers and floats
both pass, so a non-integer float records no error); a list of all
integers records no `github_issues` error at all. -/
theorem c6_github_issues_numbers (cfg : Config) (p : String) (doc : Struct) (v : TomlValue)
    (hv : lookupField doc "github_issues" = some v) :
    ((∀ l, v ≠ .arr l) →
      ((validateTOML cfg p true (.ok doc)).1).count .githubNotArray = 1) ∧
    (∀ l, v = .arr l →
      ((validateTOML cfg p true (.ok doc)).1).count .githubEntryNotNumber =
        l.countP (fun x => !(isNumberValue x))) ∧
    (∀ l, v = .arr l → (∀ x ∈ l, isIntegerValue x = true) →
      ((validateTOML cfg p true (.ok doc)).1).count .githubEntryNotNumber = 0 ∧
      ((validateTOML cfg p true (.ok doc)).1).count .githubNotArray = 0) := by
  have hmE : ∀ (s : Struct) (n : String),
      VMsg.githubEntryNotNumber ∉ validateNotEmptyMsgs s n := by
    intro s n h
    rcases mem_validateNotEmptyMsgs h with h1 | h1 | h1 <;> simp at h1
  have hmA : ∀ (s : Struct) (n : String), VMsg.githubNotArray ∉ validateNotEmptyMsgs s n := by
    intro s n h
    rcases mem_validateNotEmptyMsgs h with h1 | h1 | h1 <;> simp at h1
  have hrE : VMsg.githubEntryNotNumber ∉ (releasesPart cfg doc).1 := by
    intro h
    rcases mem_releasesPart h with h1 | ⟨n, h1⟩ | ⟨k, h1⟩ | ⟨k, h1⟩ | ⟨k, f, h1⟩ | ⟨f, h1⟩ <;>
      simp at h1
  have hrA : VMsg.githubNotArray ∉ (releasesPart cfg doc).1 := by
    intro h
    rcases mem_releasesPart h with h1 | ⟨n, h1⟩ | ⟨k, h1⟩ | ⟨k, h1⟩ | ⟨k, f, h1⟩ | ⟨f, h1⟩ <;>
      simp at h1
  have htE : VMsg.githubEntryNotNumber ∉ (testcasesPart doc).errs := by
    intro h
    unfold testcasesPart at h
    split at h
    · simp at h
    · rcases mem_tcLoop h with ⟨n, h1⟩ | ⟨n, h1⟩ | ⟨n, h1⟩ | ⟨f, h1⟩ | ⟨k, h1⟩ | ⟨k, h1⟩ <;>
        simp at h1
  have htA : VMsg.githubNotArray ∉ (testcasesPart doc).errs := by
    intro h
    unfold testcasesPart at h
    split at h
    · simp at h
    · rcases mem_tcLoop h with ⟨n, h1⟩ | ⟨n, h1⟩ | ⟨n, h1⟩ | ⟨f, h1⟩ | ⟨k, h1⟩ | ⟨k, h1⟩ <;>
        simp at h1
  have hbE : ∀ mm : Int, VMsg.githubEntryNotNumber ∉ boolPart doc mm := by
    intro mm h
    rcases mem_boolPart h with h1 | h1 <;> simp at h1
  have hbA : ∀ mm : Int, VMsg.githubNotArray ∉ boolPart doc mm := by
    intro mm h
    rcases mem_boolPart h with h1 | h1 <;> simp at h1
  refine ⟨?_, ?_, ?_⟩
  · intro hnotarr
    rw [count_validateTOML_eq_githubCheck hmA hrA htA hbA, githubCheck_of_not_arr hv hnotarr]
    rfl
  · rintro l rfl
    rw [count_validateTOML_eq_githubCheck hmE hrE htE hbE, githubCheck_of_arr hv,
      githubEntry_count_filterMap]
  · rintro l rfl hall
    constructor
    · rw [count_validateTOML_eq_githubCheck hmE hrE htE hbE, githubCheck_of_arr hv,
        githubEntry_count_filterMap]
      rw [List.countP_eq_zero]
      intro x hx
      have hnum : isNumberValue x = true := by
        have := hall x hx
        cases x <;> simp_all [isIntegerValue, isNumberValue]
      simp [hnum]
    · rw [count_validateTOML_eq_githubCheck hmA hrA htA hbA, githubCheck_of_arr hv]
      exact List.count_eq_zero.2 (githubNotArray_notMem_filterMap l)

/-- C6 (witness): `github_issues = [1, "a", true]` records exactly two
element errors (no short-circuit), and `[1, 2]` records none. -/
theorem c6_witness :
    lookupField [("title", TomlValue.str "A"), ("description", TomlValue.str "B"),
        ("github_issues", TomlValue.arr [.int 1, .str "a", .bool true]),
        ("releases", TomlValue.arr []), ("testcases", TomlValue.arr [])]
        "github_issues" = some (.arr [.int 1, .str "a", .bool true]) ∧
    ((validateTOML cfgW "games/g/game.dat" true
        (.ok [("title", TomlValue.str "A"), ("description", TomlValue.str "B"),
          ("github_issues", TomlValue.arr [.int 1, .str "a", .bool true]),
          ("releases", TomlValue.arr []), ("testcases", TomlValue.arr [])])).1).count
        .githubEntryNotNumber = 2 ∧
    ((validateTOML cfgW "games/g/game.dat" true
        (.ok [("title", TomlValue.str "A"), ("description", TomlValue.str "B"),
          ("github_issues", TomlValue.arr [.int 1, .int 2]),
          ("releases", TomlValue.arr []), ("testcases", TomlValue.arr [])])).1).count
        .githubEntryNotNumber = 0 := by
  have h := c6_github_issues_numbers cfgW "games/g/game.dat"
    [("title", TomlValue.str "A"), ("description", TomlValue.str "B"),
      ("github_issues", TomlValue.arr [.int 1, .str "a", .bool true]),
      ("releases", TomlValue.arr []), ("testcases", TomlValue.arr [])]
    (.arr [.int 1, .str "a", .bool true]) rfl
  have h2 := c6_github_issues_numbers cfgW "games/g/game.dat"
    [("title", TomlValue.str "A"), ("description", TomlValue.str "B"),
      ("github_issues", TomlValue.arr [.int 1, .int 2]),
      ("releases", TomlValue.arr []), ("testcases", TomlValue.arr [])]
    (.arr [.int 1, .int 2]) rfl
  refine ⟨rfl, ?_, ?_⟩
  · rw [h.2.1 [.int 1, .str "a", .bool true] rfl]
    decide
  · exact (h2.2.2 [.int 1, .int 2] rfl (by decide)).1

/-- C7: the save groups are exactly the distinct extension-stripped
basenames in first-occurrence order (one group each); per group a
missing `.dat` records one missing-file error and skips the metadata
validation, a missing `.zip` records one missing-file error and skips
the signature validation, a present `.zip` has its first 4 bytes
compared byte-for-byte with the zip signature; missing counterparts
never raise, and when no group raises the whole saves validation is the
in-order concatenation of the group results with no exception. -/
theorem c7_save_groups (dirPath : String) (d : SavesData) :
    saveGroups d = keysInOrder (d.files.map stripExt) ∧
    (saveGroups d).Nodup ∧
    (∀ b, b ∈ saveGroups d ↔ b ∈ d.files.map stripExt) ∧
    (∀ g,
      ((g ++ ".dat") ∉ d.files →
        datPart dirPath d g = ([.fileNotExist (dirPath ++ "/" ++ g ++ ".dat")], none)) ∧
      ((g ++ ".zip") ∉ d.files →
        zipPart dirPath d g = ([.fileNotExist (dirPath ++ "/" ++ g ++ ".zip")], none)) ∧
      ((g ++ ".zip") ∈ d.files →
        zipPart dirPath d g =
          (if (d.zipBytes (g ++ ".zip")).take 4 = zipHeader then []
            else [.notZip (dirPath ++ "/" ++ g ++ ".zip")], none)) ∧
      ((g ++ ".dat") ∉ d.files → (g ++ ".zip") ∉ d.files →
        saveGroupCheck dirPath d g =
          ([.fileNotExist (dirPath ++ "/" ++ g ++ ".dat"),
            .fileNotExist (dirPath ++ "/" ++ g ++ ".zip")], none))) ∧
    ((∀ g ∈ saveGroups d, (saveGroupCheck dirPath d g).2 = none) →
      validateSaves dirPath true d =
        ((saveGroups d).flatMap (fun g => (saveGroupCheck dirPath d g).1), none)) := by
  have hgroups : saveGroups d = keysInOrder (d.files.map stripExt) :=
    dedupFirst_eq_keysInOrder _
  refine ⟨hgroups, ?_, ?_, ?_, ?_⟩
  · rw [hgroups]
    exact keysInOrder_nodup _
  · intro b
    rw [hgroups]
    exact mem_keysInOrder
  · intro g
    refine ⟨datPart_of_missing, zipPart_of_missing, zipPart_of_present, ?_⟩
    intro h1 h2
    unfold saveGroupCheck
    rw [datPart_of_missing h1, zipPart_of_missing h2]
    rfl
  · intro hall
    unfold validateSaves
    rw [if_neg (by decide)]
    exact savesLoop_of_no_exn _ hall

/-- C7 (witness): a saves folder listing `save1.dat`, `save1.zip`,
`save2.zip` yields the two groups `save1`, `save2`; group `save2` is
missing its `.dat` (one missing-file error) and its `.zip` has a wrong
signature (one mismatch error); nothing raises. -/
theorem c7_witness :
    saveGroups savesW = ["save1", "save2"] ∧
    datPart "saves" savesW "save2" = ([.fileNotExist "saves/save2.dat"], none) ∧
    validateSaves "saves" true savesW =
      ([.fileNotExist "saves/save2.dat", .notZip "saves/save2.zip"], none) := by
  have h := c7_save_groups "saves" savesW
  refine ⟨by decide, (h.2.2.2.1 "save2").1 (by decide), ?_⟩
  rw [h.2.2.2.2 (by decide)]
  decide

/-- C8: one game's unexpected exception is caught at the per-game
boundary: the loop result over any surrounding list decomposes into the
parts before, at, and after the game (so every subsequent game is still
processed and the run never aborts), and for the raising game the
records pushed before the exception are kept, tagged with its name,
while the warning and the exception detail are logged. -/
theorem c8_per_game_boundary (cfg : Config) (l1 : List GameFS) (g : GameFS)
    (l2 : List GameFS) (h1 : g.name ≠ ".git") (h2 : g.name ≠ "_validation") :
    ((runAll cfg (l1 ++ g :: l2)).1 =
      (runAll cfg l1).1 ++ (runGame cfg g).1 ++ (runAll cfg l2).1) ∧
    ((runAll cfg (l1 ++ g :: l2)).2 =
      (runAll cfg l1).2 ++ (runGame cfg g).2 ++ (runAll cfg l2).2) ∧
    ∀ es e, validateGameBody cfg g = (es, some e) →
      runGame cfg g =
        (es.map (fun m => ⟨g.name, m⟩),
          [g.name ++ " has encountered an unexpected error.", renderExn e]) := by
  have hstep : runAll cfg (g :: l2) =
      ((runGame cfg g).1 ++ (runAll cfg l2).1, (runGame cfg g).2 ++ (runAll cfg l2).2) := rfl
  have happ := runAll_append cfg l1 (g :: l2)
  refine ⟨?_, ?_, fun es e hb => runGame_of_exn h1 h2 hb⟩
  · rw [happ, hstep]
    simp [List.append_assoc]
  · rw [happ, hstep]
    simp [List.append_assoc]

/-- C8 (witness): in a run over `good`, `bad`, `good2` — where `bad` has
an unclassifiable boxart and raises a `TypeError` before recording
anything — the warning lines are logged for `bad` and both other games
are still fully processed. -/
theorem c8_witness :
    gBadW.name ≠ ".git" ∧ gBadW.name ≠ "_validation" ∧
    validateGameBody cfgW gBadW = ([], some (.typeError "Cannot read property mime of null")) ∧
    runGame cfgW gBadW =
      ([], ["bad has encountered an unexpected error.",
        "TypeError: Cannot read property mime of null"]) ∧
    (runAll cfgW [gGoodW, gBadW, gGood2W]).1 =
      (runAll cfgW [gGoodW]).1 ++ (runGame cfgW gBadW).1 ++ (runAll cfgW [gGood2W]).1 ∧
    (runAll cfgW [gGoodW, gBadW, gGood2W]).1 =
      [⟨"good", .tomlNotFound "games/good/game.dat"⟩,
        ⟨"good2", .tomlNotFound "games/good2/game.dat"⟩] := by
  have h := c8_per_game_boundary cfgW [gGoodW] gBadW [gGood2W] (by decide) (by decide)
  exact ⟨by decide, by decide, rfl, h.2.2 [] _ rfl, h.1, by decide⟩

/-- C9: for a string date field, no error is recorded exactly when the
field contains a `YYYY-MM-DD` substring (month 01-12, day 01-31), with
arbitrary characters allowed before and after — the match is not
anchored; when no such substring exists exactly the one date error is
recorded. -/
theorem c9_date_substring (strct : Struct) (n : String) (f : String)
    (h : lookupField strct n = some (.str f)) :
    ((validateIsDateRes strct n).1 = [] ↔ containsDate f) ∧
    ((validateIsDateRes strct n).1 ≠ [] ↔ ¬containsDate f) ∧
    (¬containsDate f → (validateIsDateRes strct n).1 = [.notValidDate n f]) := by
  have hres : (validateIsDateRes strct n).1 =
      if matchDate f then [] else [.notValidDate n f] := by
    unfold validateIsDateRes
    rw [h]
  rcases hm : matchDate f with _ | _
  · have hnc : ¬containsDate f := fun hc => by
      rw [matchDate_iff.2 hc] at hm
      exact Bool.noConfusion hm
    rw [hres, hm]
    simp [hnc]
  · have hc : containsDate f := matchDate_iff.1 hm
    rw [hres, hm]
    simp [hc]

/-- C9 (witness): `"xx2020-01-02yy"` contains a valid date substring
with junk on both sides, and the date check records no error for it. -/
theorem c9_witness :
    lookupField dateStructW "release_date" = some (.str "xx2020-01-02yy") ∧
    (validateIsDateRes dateStructW "release_date").1 = [] ∧
    containsDate "xx2020-01-02yy" := by
  have h := c9_date_substring dateStructW "release_date" "xx2020-01-02yy" rfl
  exact ⟨rfl, rfl, h.1.1 rfl⟩

/-- C10: a present, non-empty, unparseable string compatibility value
records no error of its own (the presence check passes, and `parseInt`
returning `NaN` fails the `<` comparison) and leaves the running minimum
unchanged; if every testcase's compatibility is such a value, the
minimum retains the 999 sentinel and no resource-requirement boolean
error is ever recorded. -/
theorem c10_unparseable_compat :
    (∀ (t : TomlValue) (m0 : Int) (c : String),
      lookupField t.asStruct "compatibility" = some (.str c) → c ≠ "" →
      jsParseInt (.str c) = none →
      validateNotEmptyMsgs t.asStruct "compatibility" = [] ∧
        compatFold m0 t.asStruct = m0) ∧
    ∀ (cfg : Config) (p : String) (doc : Struct) (v : TomlValue),
      lookupField doc "testcases" = some v →
      (∀ t ∈ v.elems, ∃ c, lookupField t.asStruct "compatibility" = some (.str c) ∧
        c ≠ "" ∧ jsParseInt (.str c) = none) →
      (testcasesPart doc).mmin = 999 ∧
      ∀ n, VMsg.fieldNotBoolean n ∉ (validateTOML cfg p true (.ok doc)).1 := by
  constructor
  · intro t m0 c hl hc hp
    exact ⟨validateNotEmptyMsgs_of_str hl hc, compatFold_of_nan hl hp⟩
  · intro cfg p doc v hv hall
    have htp : testcasesPart doc = tcLoop 0 999 v.elems := by
      unfold testcasesPart
      rw [hv]
    have hmin : (testcasesPart doc).mmin = 999 := by
      rw [htp]
      exact tcLoop_mmin_of_all_nan v.elems 0 999
        (fun t ht => (hall t ht).elim (fun c hc => ⟨.str c, hc.1, hc.2.2⟩))
    refine ⟨hmin, fun n => ?_⟩
    apply fieldNotBoolean_notMem_validateTOML
    rw [hmin, boolPart_of_ge (by decide)]
    simp

/-- C10 (witness): a testcase with `compatibility = "abc"` — present,
non-empty, unparseable — leaves the minimum at 999 and no boolean error
is recorded. -/
theorem c10_witness :
    lookupField docCompatAbc "testcases" =
      some (.arr [.table [("compatibility", .str "abc"), ("date", .str "2020-01-02"),
        ("version", .str "HEAD-abcdefg"), ("author", .str "me")]]) ∧
    jsParseInt (.str "abc") = none ∧
    (testcasesPart docCompatAbc).mmin = 999 ∧
    VMsg.fieldNotBoolean "needs_system_files" ∉
      (validateTOML cfgW "games/g/game.dat" true (.ok docCompatAbc)).1 := by
  have h := (c10_unparseable_compat.2 cfgW "games/g/game.dat" docCompatAbc
    (.arr [.table [("compatibility", .str "abc"), ("date", .str "2020-01-02"),
      ("version", .str "HEAD-abcdefg"), ("author", .str "me")]]) rfl
    (by
      intro t ht
      simp only [TomlValue.elems, List.mem_singleton] at ht
      subst ht
      exact ⟨"abc", rfl, by decide, rfl⟩))
  exact ⟨rfl, rfl, h.1, h.2 "needs_system_files"⟩
